import Mathlib

/-!
A verification development for the `react-widgets-doc-generator` repository.

The repository extracts structured documentation records from React Native UI
component sources: it locates a component's source text (either direct
TypeScript files or the `sourcesContent` payload of compiled `.js.map`
artifacts), statically analyzes it to recover props / methods / events /
style classes, resolves inherited properties over the ancestor chain by
name-based file discovery, reconciles declared events with emitted events,
and filters the assembled record by configured exclude-lists.

Modelling conventions used throughout this file:

* File-system paths are modelled as lists of path segments
  (`Path := List String`); `path.join(a, b)` becomes list append (splitting
  `b` on `/` where the source joins multi-segment fragments).
* A text blob is represented by the three views the repository actually
  computes from it: the TypeScript syntax tree produced by
  `ts.createSourceFile` (an external library, modelled by the inductive
  `TSNode` which records exactly the node shapes the repository's visitors
  inspect), the ordered list of `invokeEventCallback('name', [args])` regex
  matches, and the ordered list of internal-runtime import-path regex
  matches.  The regular-expression scans that produce the last two are the
  `typescript`-independent part of `extractEventCallbacks` /
  `findReferencedComponents`; the per-match processing of the repository is
  modelled faithfully on top of these match lists.
* JavaScript string operations (`endsWith`, `includes`, first-occurrence
  `replace`, global `replace`, `trim`, `split`, `toLowerCase`) are modelled
  by executable functions over `List Char`; the whitespace class is the
  common ASCII whitespace set.
* `console.*` output is ambient I/O; the one warning a claim refers to
  (the unresolved-ancestor warning of `getInheritedProps`) is surfaced as an
  explicit list of warning strings in that function's result.
* Exceptions are modelled by `Option`/`Except`: a `none`/`.error` result of
  an operation that the source wraps in `try`/`catch` corresponds to the
  caught-exception path.
* The mutable `basePropsCache` field is threaded explicitly as a value of
  type `Option (List PropInfo)`.
* The source recurses through ancestor chains and child-component configs
  without any depth bound; the model and the recursive functions take an
  explicit fuel parameter, and the theorems hold for every fuel value.
-/

/-! ## JavaScript-style string primitives -/

/-- The common ASCII whitespace characters matched by JavaScript `\s` and
trimmed by `String.prototype.trim`. -/
def isWsChar (c : Char) : Bool :=
  c = ' ' || c = '\t' || c = '\n' || c = '\r' || c = '\x0b' || c = '\x0c'

/-- Boolean list-prefix test (models the position-0 test of a JS regex/startsWith). -/
def isPrefixOfL : List Char → List Char → Bool
  | [], _ => true
  | _ :: _, [] => false
  | a :: as, b :: bs => decide (a = b) && isPrefixOfL as bs

/-- `s.replace(p, r)` for strings: replaces the first occurrence of `p` only. -/
def replaceFirstL (p r : List Char) : List Char → List Char
  | [] => if isPrefixOfL p [] then r else []
  | c :: cs =>
    if isPrefixOfL p (c :: cs) then r ++ (c :: cs).drop p.length
    else c :: replaceFirstL p r cs

/-- Recursion core of `replaceAllL`; the fuel (initially the input length)
dominates the number of steps, each of which consumes at least one
character. -/
def replaceAllAux (p r : List Char) : Nat → List Char → List Char
  | 0, l => l
  | _ + 1, [] => []
  | fuel + 1, c :: cs =>
    if isPrefixOfL p (c :: cs) && decide (p ≠ []) then
      r ++ replaceAllAux p r fuel (cs.drop (p.length - 1))
    else
      c :: replaceAllAux p r fuel cs

/-- `s.replace(/p/g, r)`: replaces every occurrence of `p`, scanning left to
right and continuing after each replacement (`p` is assumed nonempty by all
call sites). -/
def replaceAllL (p r l : List Char) : List Char := replaceAllAux p r l.length l

/-- JS `s.endsWith(p)`. -/
def jsEndsWith (s p : String) : Bool := decide (p.data <:+ s.data)

/-- JS `s.includes(p)`. -/
def jsIncludes (s p : String) : Bool := decide (p.data <:+: s.data)

/-- JS `s.startsWith(p)`. -/
def jsStartsWith (s p : String) : Bool := decide (p.data <+: s.data)

/-- JS `s.replace(p, r)` (first occurrence). -/
def jsReplaceFirst (s p r : String) : String := ⟨replaceFirstL p.data r.data s.data⟩

/-- JS `s.replace(/p/g, r)` for a literal pattern `p`. -/
def jsReplaceAll (s p r : String) : String := ⟨replaceAllL p.data r.data s.data⟩

/-- JS `s.trim()`. -/
def jsTrim (s : String) : String :=
  ⟨((s.data.dropWhile isWsChar).reverse.dropWhile isWsChar).reverse⟩

/-- JS `s.toLowerCase()` (ASCII range, which is all the repository feeds it). -/
def jsToLower (s : String) : String := ⟨s.data.map Char.toLower⟩

/-- Strip a literal suffix if present (models `s.replace(/suf$/, '')`). -/
def stripSuffixIfPresent (s suf : String) : String :=
  if jsEndsWith s suf then ⟨s.data.take (s.data.length - suf.data.length)⟩ else s

/-- Order-preserving deduplication (models `[...new Set(xs)]`). -/
def dedupL (xs : List String) : List String :=
  xs.foldl (fun acc x => if x ∈ acc then acc else acc ++ [x]) []

/-- Split on a single-character separator (models JS `s.split(sep)` for the
one-character separators the repository uses: `','` and `'/'`). -/
def splitOnCharL (sep : Char) : List Char → List (List Char)
  | [] => [[]]
  | c :: cs =>
    if c = sep then [] :: splitOnCharL sep cs
    else
      match splitOnCharL sep cs with
      | [] => [[c]]
      | h :: t => (c :: h) :: t

/-- JS `s.split(sep)` for a one-character separator. -/
def jsSplitChar (s : String) (sep : Char) : List String :=
  (splitOnCharL sep s.data).map (fun l => ⟨l⟩)

/-- JS `xs.join(sep)`. -/
def joinWith (sep : String) : List String → String
  | [] => ""
  | [x] => x
  | x :: xs => x ++ sep ++ joinWith sep xs

/-! ## Data model (`types.ts`) -/

/-- `PropInfo` of `types.ts`: one extracted property descriptor. -/
structure PropInfo where
  name : String
  type : String
  defaultValue : Option String := none
  optional : Bool
  inherited : Bool := false
  inheritedFrom : Option String := none
deriving Repr, DecidableEq

/-- `ParameterInfo` of `types.ts`. -/
structure ParameterInfo where
  name : String
  type : String
  optional : Bool
deriving Repr, DecidableEq

/-- Method visibility (the string union of `types.ts`). -/
inductive Visibility where
  | publicV | privateV | protectedV
deriving Repr, DecidableEq

/-- `MethodInfo` of `types.ts`. -/
structure MethodInfo where
  name : String
  visibility : Visibility
  returnType : String
  parameters : List ParameterInfo
deriving Repr, DecidableEq

/-- `EventInfo` of `types.ts`. -/
structure EventInfo where
  name : String
  type : String
  parameters : Option String := none
deriving Repr, DecidableEq

/-- `StyleInfo` of `types.ts`. -/
structure StyleInfo where
  className : String
  description : Option String := none
deriving Repr, DecidableEq

/-- A file-system path, as a list of segments. -/
abbrev FsPath := List String

/-- `ComponentDoc` of `types.ts` (inductive because child docs nest). -/
inductive ComponentDoc where
  | mk (componentName : String) (componentPath : FsPath) (category : String)
       (props : List PropInfo) (methods : List MethodInfo)
       (events : List EventInfo) (styles : List StyleInfo)
       (baseClass : Option String) (children : Option (List ComponentDoc))

def ComponentDoc.componentName : ComponentDoc → String
  | .mk n _ _ _ _ _ _ _ _ => n

def ComponentDoc.props : ComponentDoc → List PropInfo
  | .mk _ _ _ p _ _ _ _ _ => p

def ComponentDoc.methods : ComponentDoc → List MethodInfo
  | .mk _ _ _ _ m _ _ _ _ => m

def ComponentDoc.events : ComponentDoc → List EventInfo
  | .mk _ _ _ _ _ e _ _ _ => e

def ComponentDoc.styles : ComponentDoc → List StyleInfo
  | .mk _ _ _ _ _ _ s _ _ => s

def ComponentDoc.baseClass : ComponentDoc → Option String
  | .mk _ _ _ _ _ _ _ b _ => b

/-! ## TypeScript syntax-tree model

`ts.createSourceFile` (external `typescript` library) parses a text blob
into a tree; the repository's visitors walk it with `ts.forEachChild`,
pre-order.  `TSNode` records, for each node, exactly the data the visitors
of `ts-parser.ts` inspect, plus the ordered child list that
`ts.forEachChild` iterates. -/

/-- One type of a heritage clause.  `isExprWithTypeArgs` models the
`ts.isExpressionWithTypeArguments` test; `exprText` the
`expression.getText(sourceFile)` result. -/
structure HeritageType where
  isExprWithTypeArgs : Bool
  exprText : String
deriving Repr, DecidableEq

/-- Heritage token: whether the clause is `extends` or `implements`. -/
inductive HeritageToken where
  | extendsKw | implementsKw
deriving Repr, DecidableEq

/-- A heritage clause (`extends X` / `implements X`); the TypeScript grammar
guarantees at least one type per clause. -/
structure HeritageClause where
  token : HeritageToken
  types : List HeritageType
deriving Repr, DecidableEq

/-- A member modifier, as far as `extractMethods` inspects it. -/
inductive ModifierKind where
  | privateKw | protectedKw | otherModifier
deriving Repr, DecidableEq

/-- A method parameter.  `isIdentName` models the `ts.isIdentifier(param.name)`
test (binding patterns fail it); `typeText` is the `param.type` text, absent
when no annotation is present. -/
structure ParamNode where
  isIdentName : Bool
  nameText : String
  hasQuestionToken : Bool
  typeText : Option String
deriving Repr, DecidableEq

/-- A class/interface/type-literal member, restricted to the node kinds the
visitors test for.  Text fields are `getText(sourceFile)` results; a `none`
name models a member whose `name` property is absent. -/
inductive MemberNode where
  | propertyDecl (nameText : Option String) (hasQuestionToken : Bool)
      (typeText : Option String) (initText : Option String)
  | propertySig (nameText : Option String) (hasQuestionToken : Bool)
      (typeText : Option String)
  | methodDecl (nameText : Option String) (modifiers : List ModifierKind)
      (typeText : Option String) (params : List ParamNode)
  | otherMember
deriving Repr, DecidableEq

/-- One declaration of a variable statement, as far as `extractStyleClasses`
inspects it: identifier-named or not, and a string-literal initializer text
when present. -/
structure VarDeclNode where
  isIdentName : Bool
  nameText : String
  initStringLit : Option String
deriving Repr, DecidableEq

/-- The callee shape of a call expression. -/
inductive CalleeNode where
  | identifier (text : String)
  | propertyAccess (nameText : String)
  | otherCallee
deriving Repr, DecidableEq

/-- A call-expression argument, restricted to the shapes
`extractStyleClasses` tests for; `binaryExpr` carries the raw
`getText(sourceFile)` of the expression. -/
inductive ArgNode where
  | stringLit (text : String)
  | binaryExpr (text : String)
  | otherArg
deriving Repr, DecidableEq

/-- A TypeScript syntax-tree node.  Each constructor carries the data the
repository's visitors read off that node kind, and the ordered list of
children visited by `ts.forEachChild`. -/
inductive TSNode where
  | classDecl (name : Option String) (heritage : List HeritageClause)
      (members : List MemberNode) (children : List TSNode)
  | interfaceDecl (name : Option String) (heritage : List HeritageClause)
      (members : List MemberNode) (children : List TSNode)
  | typeAliasDecl (name : Option String) (typeIsLiteral : Bool)
      (typeMembers : List MemberNode) (children : List TSNode)
  | variableStatement (decls : List VarDeclNode) (children : List TSNode)
  | callExpression (callee : CalleeNode) (args : List ArgNode)
      (children : List TSNode)
  | otherNode (children : List TSNode)

/-- The child list iterated by `ts.forEachChild`. -/
def TSNode.childNodes : TSNode → List TSNode
  | .classDecl _ _ _ cs => cs
  | .interfaceDecl _ _ _ cs => cs
  | .typeAliasDecl _ _ _ cs => cs
  | .variableStatement _ cs => cs
  | .callExpression _ _ cs => cs
  | .otherNode cs => cs

mutual
/-- The visitor pattern of `ts-parser.ts`: process the node, then recurse
into its children (`visit(node); ts.forEachChild(node, visit)` with the
state captured by closure). -/
def visitFold {S : Type} (f : S → TSNode → S) (s : S) : TSNode → S
  | .classDecl a b c cs => visitFoldList f (f s (.classDecl a b c cs)) cs
  | .interfaceDecl a b c cs => visitFoldList f (f s (.interfaceDecl a b c cs)) cs
  | .typeAliasDecl a b c cs => visitFoldList f (f s (.typeAliasDecl a b c cs)) cs
  | .variableStatement a cs => visitFoldList f (f s (.variableStatement a cs)) cs
  | .callExpression a b cs => visitFoldList f (f s (.callExpression a b cs)) cs
  | .otherNode cs => visitFoldList f (f s (.otherNode cs)) cs

def visitFoldList {S : Type} (f : S → TSNode → S) (s : S) : List TSNode → S
  | [] => s
  | c :: cs => visitFoldList f (visitFold f s c) cs
end

mutual
/-- All nodes of a tree in the visitor's pre-order. -/
def preorderNodes : TSNode → List TSNode
  | .classDecl a b c cs => .classDecl a b c cs :: preorderList cs
  | .interfaceDecl a b c cs => .interfaceDecl a b c cs :: preorderList cs
  | .typeAliasDecl a b c cs => .typeAliasDecl a b c cs :: preorderList cs
  | .variableStatement a cs => .variableStatement a cs :: preorderList cs
  | .callExpression a b cs => .callExpression a b cs :: preorderList cs
  | .otherNode cs => .otherNode cs :: preorderList cs

def preorderList : List TSNode → List TSNode
  | [] => []
  | c :: cs => preorderNodes c ++ preorderList cs
end

/-! ## Syntax analyzer (`ts-parser.ts`, class `TypeScriptParser`) -/

/-- Result shape of `TypeScriptParser.extractProps`. -/
structure ExtractedProps where
  props : List PropInfo
  className : String
  baseClass : Option String := none
deriving Repr, DecidableEq

/-- Result shape of `TypeScriptParser.extractMethods`. -/
structure ExtractedMethods where
  methods : List MethodInfo
  className : String
deriving Repr, DecidableEq

/-- Result shape of `TypeScriptParser.extractStyleClasses`. -/
structure ExtractedStyles where
  defaultClass : String
  styleClasses : List String
deriving Repr, DecidableEq

/-- The base-class resolution of `extractProps`: iterate the heritage
clauses, and for each `extends` clause take its first type; when that type
passes `ts.isExpressionWithTypeArguments`, record its expression text. -/
def heritageBaseClass (hs : List HeritageClause) : Option String :=
  hs.foldl
    (fun acc h =>
      if h.token = .extendsKw then
        match h.types.head? with
        | some t => if t.isExprWithTypeArgs then some t.exprText else acc
        | none => acc
      else acc)
    none

/-- The initializer normalization of `extractProps`: `'null as any'` becomes
`'null'`, any other text ending in `' as any'` has its first `' as any'`
occurrence removed (JS first-occurrence `replace`), anything else is kept
verbatim. -/
def cleanInitText (t : String) : String :=
  if t = "null as any" then "null"
  else if jsEndsWith t " as any" then jsReplaceFirst t " as any" ""
  else t

/-- Property collection from class members (`ts.isPropertyDeclaration`
branch). -/
def classMemberProps (ms : List MemberNode) : List PropInfo :=
  ms.foldl
    (fun acc m =>
      match m with
      | .propertyDecl (some nm) q ty init =>
        acc ++ [{ name := nm, type := ty.getD "any",
                  defaultValue := init.map cleanInitText,
                  optional := q, inherited := false }]
      | _ => acc)
    []

/-- Property collection from interface / type-literal members
(`ts.isPropertySignature` branch). -/
def sigMemberProps (ms : List MemberNode) : List PropInfo :=
  ms.foldl
    (fun acc m =>
      match m with
      | .propertySig (some nm) q ty =>
        acc ++ [{ name := nm, type := ty.getD "any", defaultValue := none,
                  optional := q, inherited := false }]
      | _ => acc)
    []

/-- The per-node test of the `extractProps` visitor: a class or interface
declaration named `*Props`, or a type alias named `*Props` whose right-hand
side is a type literal. -/
def matchPropsDecl : TSNode → Option ExtractedProps
  | .classDecl (some nm) hs ms _ =>
    if jsEndsWith nm "Props" then
      some { props := classMemberProps ms, className := nm,
             baseClass := heritageBaseClass hs }
    else none
  | .interfaceDecl (some nm) hs ms _ =>
    if jsEndsWith nm "Props" then
      some { props := sigMemberProps ms, className := nm,
             baseClass := heritageBaseClass hs }
    else none
  | .typeAliasDecl (some nm) isLit ms _ =>
    if jsEndsWith nm "Props" && isLit then
      some { props := sigMemberProps ms, className := nm, baseClass := none }
    else none
  | _ => none

/-- One visitor step of `extractProps`: a matching declaration overwrites
the mutable `result`. -/
def propsStep (s : Option ExtractedProps) (n : TSNode) : Option ExtractedProps :=
  match matchPropsDecl n with
  | some r => some r
  | none => s

/-- `TypeScriptParser.extractProps`: walk the tree; every matching
declaration overwrites the mutable `result`, so the last match in traversal
order is returned. -/
def extractProps (root : TSNode) : Option ExtractedProps :=
  visitFold propsStep none root

/-- All `*Props` declarations of a tree, in traversal order. -/
def propsDeclarations (root : TSNode) : List ExtractedProps :=
  (preorderNodes root).filterMap matchPropsDecl

/-- The lifecycle/constructor names skipped by `extractMethods`. -/
def lifecycleMethodNames : List String :=
  ["constructor", "render", "componentDidMount", "componentWillUnmount",
   "shouldComponentUpdate", "componentDidUpdate"]

/-- Visibility from the modifier list: each `private`/`protected` modifier
overwrites the running value, which starts `public`. -/
def visibilityOfModifiers (mods : List ModifierKind) : Visibility :=
  mods.foldl
    (fun v m =>
      match m with
      | .privateKw => .privateV
      | .protectedKw => .protectedV
      | .otherModifier => v)
    .publicV

/-- Parameter collection of `extractMethods`: parameters whose name is not a
plain identifier are skipped. -/
def methodParams (ps : List ParamNode) : List ParameterInfo :=
  ps.foldl
    (fun acc p =>
      if p.isIdentName then
        acc ++ [{ name := p.nameText, type := p.typeText.getD "any",
                  optional := p.hasQuestionToken }]
      else acc)
    []

/-- Method collection from class members (`ts.isMethodDeclaration` branch):
skip lifecycle names, skip non-public members, default the return type to
`void`. -/
def classMemberMethods (ms : List MemberNode) : List MethodInfo :=
  ms.foldl
    (fun acc m =>
      match m with
      | .methodDecl (some nm) mods retTy params =>
        if nm ∈ lifecycleMethodNames then acc
        else if visibilityOfModifiers mods ≠ .publicV then acc
        else
          acc ++ [{ name := nm, visibility := visibilityOfModifiers mods,
                    returnType := retTy.getD "void",
                    parameters := methodParams params }]
      | _ => acc)
    []

/-- The per-node test of the `extractMethods` visitor: a named class whose
name does not end in `Props`, `Styles` or `State`. -/
def matchMethodsDecl : TSNode → Option ExtractedMethods
  | .classDecl (some nm) _ ms _ =>
    if !jsEndsWith nm "Props" && !jsEndsWith nm "Styles" && !jsEndsWith nm "State" then
      some { methods := classMemberMethods ms, className := nm }
    else none
  | _ => none

/-- One visitor step of `extractMethods`. -/
def methodsStep (s : Option ExtractedMethods) (n : TSNode) : Option ExtractedMethods :=
  match matchMethodsDecl n with
  | some r => some r
  | none => s

/-- `TypeScriptParser.extractMethods`. -/
def extractMethods (root : TSNode) : Option ExtractedMethods :=
  visitFold methodsStep none root

/-- Strip all quote characters (models `replace(/['"`]/g, '')`). -/
def stripQuotes (s : String) : String :=
  ⟨s.data.filter (fun c => !(c = '\'' || c = '"' || c = '`'))⟩

/-- Recursion core of `removePlusRuns`; the fuel (initially the input
length) dominates the number of steps, each of which consumes at least one
character. -/
def removePlusAux : Nat → List Char → List Char
  | 0, l => l
  | _ + 1, [] => []
  | fuel + 1, c :: cs =>
    match (c :: cs).dropWhile isWsChar with
    | '+' :: r => removePlusAux fuel (r.dropWhile isWsChar)
    | _ => c :: removePlusAux fuel cs

/-- Remove every `\s*\+\s*` match (models `replace(/\s*\+\s*/g, '')`): a
match occurs exactly at positions where a whitespace run is followed by `+`,
and consumes the run, the `+`, and the following whitespace run. -/
def removePlusRuns (l : List Char) : List Char := removePlusAux l.length l

/-- The style-class resolution of a `+`-expression argument: substitute the
`DEFAULT_CLASS` constant, strip quotes, and remove the `+` operators. -/
def resolveStyleExpr (defaultClass text : String) : String :=
  if jsIncludes text "DEFAULT_CLASS" && decide (defaultClass ≠ "") then
    let substituted := jsReplaceAll text "DEFAULT_CLASS" ("'" ++ defaultClass ++ "'")
    ⟨removePlusRuns (stripQuotes substituted).data⟩
  else text

/-- Whether a call expression's callee is `addStyle`, either a bare
identifier or a property access. -/
def isAddStyleCallee : CalleeNode → Bool
  | .identifier t => t = "addStyle"
  | .propertyAccess t => t = "addStyle"
  | .otherCallee => false

/-- One step of the `extractStyleClasses` visitor over the running state
`(defaultClass, styleClasses)`. -/
def styleStep (s : String × List String) (n : TSNode) : String × List String :=
  match n with
  | .variableStatement decls _ =>
    (decls.foldl
      (fun d decl =>
        if decl.isIdentName && decide (decl.nameText = "DEFAULT_CLASS") then
          match decl.initStringLit with
          | some lit => lit
          | none => d
        else d)
      s.1, s.2)
  | .callExpression callee args _ =>
    if isAddStyleCallee callee then
      match args.head? with
      | some (.stringLit t) =>
        if t ∈ s.2 then s else (s.1, s.2 ++ [t])
      | some (.binaryExpr t) =>
        let resolved := resolveStyleExpr s.1 t
        if resolved ∈ s.2 then s else (s.1, s.2 ++ [resolved])
      | _ => s
    else s
  | _ => s

/-- `TypeScriptParser.extractStyleClasses`: returns `none` when neither a
`DEFAULT_CLASS` constant nor any `addStyle` class was found. -/
def extractStyleClasses (root : TSNode) : Option ExtractedStyles :=
  let s := visitFold styleStep ("", []) root
  if decide (s.1 ≠ "") || decide (s.2 ≠ []) then
    some { defaultClass := s.1, styleClasses := s.2 }
  else none

/-- `TypeScriptParser.extractEvents`: properties named `on*` whose type is
`Function` or contains `=>`. -/
def extractEvents (props : List PropInfo) : List (String × String) :=
  (props.filter
    (fun p => jsStartsWith p.name "on" &&
      (decide (p.type = "Function") || jsIncludes p.type "=>"))).map
    (fun p => (p.name, p.type))

/-- Result shape of one `extractEventCallbacks` entry. -/
structure CallbackEvent where
  name : String
  parameters : String
deriving Repr, DecidableEq

/-- Parameter clean-up of `extractEventCallbacks`: split the raw capture on
commas, trim, and drop empty pieces and implicit target references. -/
def cleanCallbackParams (raw : String) : String :=
  let pieces := (jsSplitChar (jsTrim raw) ',').map jsTrim
  let kept := pieces.filter
    (fun p => decide (p ≠ "") && decide (p ≠ "this.props.target") && decide (p ≠ "target"))
  if kept.isEmpty then "()" else "(" ++ joinWith ", " kept ++ ")"

/-- One step of `extractEventCallbacks` over the state
`(eventSet, events)`: a name already in the set is skipped. -/
def ecStep (st : List String × List CallbackEvent) (m : String × String) :
    List String × List CallbackEvent :=
  if m.1 ∈ st.1 then st
  else (st.1 ++ [m.1], st.2 ++ [{ name := m.1, parameters := cleanCallbackParams m.2 }])

/-- `TypeScriptParser.extractEventCallbacks`, over the ordered list of
`invokeEventCallback('name', [raw])` regex matches of a source text: the
first match of each event name wins. -/
def extractEventCallbacks (ms : List (String × String)) : List CallbackEvent :=
  (ms.foldl ecStep ([], [])).2

/-! ## File-system model and source extractor (`source-extractor.ts`) -/

/-- The three views of a text blob that the repository computes: its
TypeScript parse tree, the ordered `invokeEventCallback` regex matches
(event name capture, raw bracket-contents capture), and the ordered
internal-runtime import-path captures of the
`from '@wavemaker/app-rn-runtime/((core|components)/...)'` pattern. -/
structure SourceBlob where
  ast : TSNode
  emits : List (String × String) := []
  imports : List String := []

/-- The content of one file: its text (as a `SourceBlob`), and its view as a
JSON source map — `some sourcesContent` when `JSON.parse` succeeds and the
payload carries that `sourcesContent` array, `none` when parsing fails. -/
structure FileData where
  text : SourceBlob
  json : Option (List SourceBlob) := none

/-- A directory-tree entry. -/
inductive FsEntry where
  | fileE (name : String) (data : FileData)
  | dirE (name : String) (entries : List FsEntry)

/-- Entry name. -/
def FsEntry.name : FsEntry → String
  | .fileE n _ => n
  | .dirE n _ => n

/-- Result of resolving a path against the tree. -/
inductive LookupResult where
  | fileR (data : FileData)
  | dirR (entries : List FsEntry)

/-- Resolve a path (list of segments) against a directory's entries. -/
def lookupPath (es : List FsEntry) : FsPath → Option LookupResult
  | [] => some (.dirR es)
  | nm :: rest =>
    match es.find? (fun e => e.name = nm) with
    | some (.fileE _ d) => if rest.isEmpty then some (.fileR d) else none
    | some (.dirE _ sub) => lookupPath sub rest
    | none => none

/-- `fs.existsSync`. -/
def existsSync (root : List FsEntry) (p : FsPath) : Bool := (lookupPath root p).isSome

/-- `fs.readdirSync(dir)` (names only); `none` models the thrown error when
the path is not a directory. -/
def readdirNames (root : List FsEntry) (dir : FsPath) : Option (List String) :=
  match lookupPath root dir with
  | some (.dirR es) => some (es.map FsEntry.name)
  | _ => none

/-- `fs.readFileSync(p, 'utf-8')` inside a local `try`: `none` when the path
is missing or unreadable. -/
def readFileBlob (root : List FsEntry) (p : FsPath) : Option SourceBlob :=
  match lookupPath root p with
  | some (.fileR fd) => some fd.text
  | _ => none

/-- `SourceExtractor.extractSourceContent` (with the default source index 0):
read and `JSON.parse` the map file, check `sourcesContent` is present and
nonempty, and return its first element.  All failures are caught and
reported as `none`. -/
def extractSourceContent (root : List FsEntry) (p : FsPath) : Option SourceBlob :=
  match lookupPath root p with
  | some (.fileR fd) => fd.json.bind List.head?
  | _ => none

/-- Result shape of `SourceExtractor.extractComponentSources`. -/
structure Sources where
  props : Option SourceBlob := none
  component : Option SourceBlob := none
  styles : Option SourceBlob := none

/-- `SourceExtractor.extractComponentSources`: direct-source form first
(an `index.tsx`/`index.ts` entry file, optionally overridden by a dedicated
types file and complemented by a styles file), falling back to the compiled
`.js.map` artifact form.  A `none` result models the error thrown when the
component directory cannot be listed. -/
def extractComponentSources (root : List FsEntry) (dir : FsPath) : Option Sources :=
  match readdirNames root dir with
  | none => none
  | some files =>
    match files.find? (fun f => f = "index.tsx" || f = "index.ts") with
    | some idx =>
      let s1 : Sources :=
        match readFileBlob root (dir ++ [idx]) with
        | some b => { props := some b, component := some b }
        | none => {}
      let s2 : Sources :=
        match files.find? (fun f => f = "types.ts" || f = "types.tsx" || jsEndsWith f ".types.ts") with
        | some tf =>
          match readFileBlob root (dir ++ [tf]) with
          | some tb => { s1 with props := some tb }
          | none => s1
        | none => s1
      let s3 : Sources :=
        match files.find? (fun f =>
            f = "styles.ts" || f = "styles.tsx" ||
            jsEndsWith f ".styles.ts" || jsEndsWith f ".styles.tsx") with
        | some sf =>
          match readFileBlob root (dir ++ [sf]) with
          | some sb => { s2 with styles := some sb }
          | none => s2
        | none => s2
      some s3
    | none =>
      some
        { props := (files.find? (fun f => jsEndsWith f ".props.js.map")).bind
            (fun f => extractSourceContent root (dir ++ [f])),
          component := (files.find? (fun f => jsEndsWith f ".component.js.map")).bind
            (fun f => extractSourceContent root (dir ++ [f])),
          styles := (files.find? (fun f => jsEndsWith f ".styles.js.map")).bind
            (fun f => extractSourceContent root (dir ++ [f])) }

/-! ## Configuration model (`config.ts`) -/

/-- A per-component override entry of `documentation.componentOverrides`. -/
structure ComponentOverride where
  excludeProps : Option (List String) := none
  excludeMethods : Option (List String) := none
  excludeStyleClasses : Option (List String) := none

/-- The `documentation` section of `GeneratorConfig`. -/
structure DocumentationConfig where
  excludeProps : List String := []
  excludeInheritedProps : List String := []
  excludeMethods : List String := []
  excludeStyleClasses : List String := []
  componentOverrides : List (String × ComponentOverride) := []

/-- `GeneratorConfig` (the fields the extraction core reads). -/
structure GeneratorConfig where
  includeComponents : List String := []
  childComponents : List (String × List (String × String)) := []
  excludeCategories : List String := []
  documentation : DocumentationConfig := {}

/-- `xs.includes(x)` on a string array. -/
def listIncludes (l : List String) (x : String) : Bool := decide (x ∈ l)

/-- `config.documentation.componentOverrides[name]`. -/
def lookupOverride (cfg : GeneratorConfig) (nm : String) : Option ComponentOverride :=
  (cfg.documentation.componentOverrides.find? (fun e => e.1 = nm)).map (·.2)

/-- `overrides?.field?.includes(x)` (undefined is falsy). -/
def optIncludes (o : Option (List String)) (x : String) : Bool :=
  match o with
  | some l => listIncludes l x
  | none => false

/-- `config.childComponents[name]`. -/
def lookupChildConfig (cfg : GeneratorConfig) (nm : String) : Option (List (String × String)) :=
  (cfg.childComponents.find? (fun e => e.1 = nm)).map (·.2)

/-! ## Documentation generator (`doc-generator.ts`) -/

/-- The inheritance tag applied to a resolved ancestor property:
`{ ...prop, inherited: true, inheritedFrom: name }`. -/
def tagInherited (nm : String) (p : PropInfo) : PropInfo :=
  { p with inherited := true, inheritedFrom := some nm }

/-- The direct-TypeScript fallback loop of `getBaseProps`: scan the
candidate base files in order; a location that exists but cannot be read as
a file raises, which the surrounding `catch` turns into giving up. -/
def scanBasePaths (root : List FsEntry) : List FsPath → Option (List PropInfo)
  | [] => none
  | p :: rest =>
    match lookupPath root p with
    | some (.fileR fd) =>
      match extractProps fd.text.ast with
      | some info =>
        if info.className = "BaseProps" then some info.props else scanBasePaths root rest
      | none => scanBasePaths root rest
    | some (.dirR _) => none
    | none => scanBasePaths root rest

/-- The cache-miss computation of `getBaseProps`: the old-format
`core/base.component.js.map` artifact first, then the direct-source
candidate locations; the extracted declaration must be named exactly
`BaseProps`. -/
def tryComputeBaseProps (root : List FsEntry) (cp : FsPath) : Option (List PropInfo) :=
  let oldFormat :=
    match extractSourceContent root (cp ++ ["core", "base.component.js.map"]) with
    | some blob =>
      match extractProps blob.ast with
      | some info => if info.className = "BaseProps" then some info.props else none
      | none => none
    | none => none
  match oldFormat with
  | some ps => some ps
  | none =>
    scanBasePaths root
      [cp ++ ["core", "base.ts"], cp ++ ["core", "base.tsx"],
       cp ++ ["common", "base.ts"], cp ++ ["common", "base.tsx"]]

/-- `getBaseProps` with the `basePropsCache` field threaded explicitly:
return the cached list when populated, otherwise compute and cache on
success. -/
def getBaseProps (root : List FsEntry) (cp : FsPath) (cache : Option (List PropInfo)) :
    List PropInfo × Option (List PropInfo) :=
  match cache with
  | some ps => (ps, some ps)
  | none =>
    match tryComputeBaseProps root cp with
    | some ps => (ps, some ps)
    | none => ([], none)

/-- The camel-case to hyphen-case conversion of `findParentPropsFile`
(`replace(/([a-z0-9])([A-Z])/g, '$1-$2')`): insert a hyphen between a
lower-case letter or digit and an upper-case letter. -/
def kebabInsert : List Char → List Char
  | [] => []
  | [c] => [c]
  | c1 :: c2 :: rest =>
    if (c1.isLower || c1.isDigit) && c2.isUpper then
      c1 :: '-' :: kebabInsert (c2 :: rest)
    else c1 :: kebabInsert (c2 :: rest)

/-- `toKebab` of `findParentPropsFile`. -/
def toKebabCase (s : String) : String := ⟨(kebabInsert s.data).map Char.toLower⟩

/-- Candidate file stems of `findParentPropsFile`: strip `Props`/`Component`
suffixes, then the lower-cased and hyphen-cased base name, repeated with the
`Wm` prefix stripped when present, deduplicated preserving order. -/
def parentCandidates (className : String) : List String :=
  let baseName := stripSuffixIfPresent (stripSuffixIfPresent className "Props") "Component"
  dedupL
    ([jsToLower baseName, toKebabCase baseName] ++
      (if jsStartsWith baseName "Wm" then
        let noPre : String := ⟨baseName.data.drop 2⟩
        [jsToLower noPre, toKebabCase noPre]
      else []))

mutual
/-- One entry of the `searchForFile` depth-first traversal: a directory is
searched recursively, a file matches when its name equals the target. -/
def searchEntry (prefixPath : FsPath) (e : FsEntry) (target : String) : Option FsPath :=
  match e with
  | .fileE nm _ => if nm = target then some (prefixPath ++ [nm]) else none
  | .dirE nm sub => searchForFile (prefixPath ++ [nm]) sub target

/-- `searchForFile`: depth-first search of a directory's entries, in listing
order, recursing into subdirectories before examining later siblings. -/
def searchForFile (prefixPath : FsPath) (es : List FsEntry) (target : String) : Option FsPath :=
  match es with
  | [] => none
  | e :: rest =>
    match searchEntry prefixPath e target with
    | some p => some p
    | none => searchForFile prefixPath rest target
end

/-- `findParentPropsFile`: try every candidate stem (outer loop) against the
`components` and `core` roots (inner loop), searching recursively for
`<stem>.props.js.map`. -/
def findParentPropsFile (root : List FsEntry) (cp : FsPath) (className : String) : Option FsPath :=
  (parentCandidates className).findSome? (fun fileName =>
    [cp ++ ["components"], cp ++ ["core"]].findSome? (fun sp =>
      match lookupPath root sp with
      | some (.dirR es) => searchForFile sp es (fileName ++ ".props.js.map")
      | _ => none))

/-- The unresolved-ancestor warning text of `getInheritedProps`. -/
def unresolvedParentWarning (className : String) : String :=
  "Could not find props file for parent class: " ++ className

/-- `getInheritedProps`: resolve an ancestor name to a property list.
`BaseProps` uses the cached root set; otherwise locate the ancestor's props
artifact, tag its own properties with the ancestor's name, and append the
recursively resolved grandparent properties.  Returns the list, the
updated cache, and the warnings emitted.  The source recurses without a
depth bound; `fuel` bounds the model's recursion. -/
def getInheritedProps (fuel : Nat) (root : List FsEntry) (cp : FsPath)
    (cache : Option (List PropInfo)) (baseClassName : String) :
    List PropInfo × Option (List PropInfo) × List String :=
  match fuel with
  | 0 => ([], cache, [])
  | f + 1 =>
    if baseClassName = "BaseProps" then
      let r := getBaseProps root cp cache
      (r.1.map (tagInherited "BaseProps"), r.2, [])
    else
      match findParentPropsFile root cp baseClassName with
      | none => ([], cache, [unresolvedParentWarning baseClassName])
      | some path =>
        match extractSourceContent root path with
        | none => ([], cache, [])
        | some blob =>
          match extractProps blob.ast with
          | none => ([], cache, [])
          | some info =>
            let own := info.props.map (tagInherited baseClassName)
            match info.baseClass with
            | none => (own, cache, [])
            | some b =>
              let r := getInheritedProps f root cp cache b
              (own ++ r.1, r.2.1, r.2.2)

/-- `filterComponentDoc`: drop properties named in the global exclude-list,
inherited properties named in the inherited exclude-list, and
properties/methods/style classes named in the per-component override
exclude-lists. -/
def filterComponentDoc (cfg : GeneratorConfig) (doc : ComponentDoc) : ComponentDoc :=
  let config := cfg.documentation
  let overrides := lookupOverride cfg doc.componentName
  let filteredProps := doc.props.filter (fun p =>
    !listIncludes config.excludeProps p.name &&
    !(p.inherited && listIncludes config.excludeInheritedProps p.name) &&
    !optIncludes (overrides.bind (·.excludeProps)) p.name)
  let filteredMethods := doc.methods.filter (fun m =>
    !listIncludes config.excludeMethods m.name &&
    !optIncludes (overrides.bind (·.excludeMethods)) m.name)
  let filteredStyles := doc.styles.filter (fun s =>
    !listIncludes config.excludeStyleClasses s.className &&
    !optIncludes (overrides.bind (·.excludeStyleClasses)) s.className)
  match doc with
  | .mk n p c _ _ e _ b ch => .mk n p c filteredProps filteredMethods e filteredStyles b ch

/-- The character class of an unescaped `.` in a JS regex (anything but a
line terminator). -/
def dotMatches (c : Char) : Bool :=
  !(c = '\n' || c = '\r' || c = '\u2028' || c = '\u2029')

/-- Lazy body search for the `\((.*?)\)\s*=>` pattern, after an opening
parenthesis: at each position, first try to close (`)` followed by optional
whitespace and `=>`), otherwise extend the body by one `.`-matching
character. -/
def matchAfterParen : List Char → Option (List Char)
  | [] => none
  | c :: rest =>
    if c = ')' && isPrefixOfL ['=', '>'] (rest.dropWhile isWsChar) then some []
    else if dotMatches c then (matchAfterParen rest).map (c :: ·)
    else none

/-- First match of `\((.*?)\)\s*=>`, scanning start positions left to
right. -/
def findParenArrow : List Char → Option (List Char)
  | [] => none
  | c :: rest =>
    if c = '(' then
      match matchAfterParen rest with
      | some body => some body
      | none => findParenArrow rest
    else findParenArrow rest

/-- `extractEventParameters`: `'Function'` becomes `'()'`; otherwise take the
first `(...)  =>` group of the type text, else the type text verbatim. -/
def extractEventParameters (eventType : String) : String :=
  if eventType = "Function" then "()"
  else
    match findParenArrow eventType.data with
    | some body => "(" ++ (⟨body⟩ : String) ++ ")"
    | none => eventType

/-- `findReferencedComponents`: each captured runtime-relative import path
becomes `<componentsPath>/<capture>.js`. -/
def findReferencedComponents (cp : FsPath) (imports : List String) : List FsPath :=
  imports.map (fun rel => cp ++ jsSplitChar (rel ++ ".js") '/')

/-- `Map.set` of a name-keyed JS `Map`, on its insertion-ordered entry list:
overwrite in place when the key is present, append otherwise. -/
def eventMapInsert (m : List EventInfo) (e : EventInfo) : List EventInfo :=
  if m.any (fun x => decide (x.name = e.name)) then
    m.map (fun x => if x.name = e.name then e else x)
  else m ++ [e]

/-- The event reconciliation of `generateComponentDoc`: insert the
prop-declared events first, then the callback events, which overwrite
name-collisions; the final list is the map's values in insertion order. -/
def mergeEventLists (propsEvents callbackEvents : List EventInfo) : List EventInfo :=
  callbackEvents.foldl eventMapInsert (propsEvents.foldl eventMapInsert [])

/-- One step of the cross-component merge: a referenced component's emitted
event is appended only when no entry with its name is already present. -/
def addRefStep (a : List EventInfo) (e : CallbackEvent) : List EventInfo :=
  if a.any (fun x => decide (x.name = e.name)) then a
  else a ++ [{ name := e.name, type := "Function", parameters := some e.parameters }]

/-- The cross-component merge of `generateComponentDoc` for one referenced
component's event list. -/
def addRefEvents (acc : List EventInfo) (refEvents : List CallbackEvent) : List EventInfo :=
  refEvents.foldl addRefStep acc

/-- The component's own emitted events, as `EventInfo` records of type
`Function`. -/
def callbackEventInfos (ms : List (String × String)) : List EventInfo :=
  (extractEventCallbacks ms).map
    (fun e => { name := e.name, type := "Function", parameters := some e.parameters })

/-- The referenced-component scan: read each referenced file that exists and
merge its emitted events; a path that exists but cannot be read as a file
raises (`.error`), aborting the enclosing generation. -/
def collectRefEvents (root : List FsEntry) (acc : List EventInfo) :
    List FsPath → Except Unit (List EventInfo)
  | [] => .ok acc
  | p :: ps =>
    match lookupPath root p with
    | none => collectRefEvents root acc ps
    | some (.dirR _) => .error ()
    | some (.fileR fd) =>
      collectRefEvents root (addRefEvents acc (extractEventCallbacks fd.text.emits)) ps

/-- Lines 311–349 of `generateComponentDoc`: when the compiled
`<name>.component.js` file exists, extract its own emitted events, then merge
events emitted by its statically referenced components. -/
def collectCallbackEvents (root : List FsEntry) (cp : FsPath) (jsPath : FsPath) :
    Except Unit (List EventInfo) :=
  match lookupPath root jsPath with
  | none => .ok []
  | some (.dirR _) => .error ()
  | some (.fileR fd) =>
    collectRefEvents root (callbackEventInfos fd.text.emits)
      (findReferencedComponents cp fd.text.imports)

/-- `path.resolve(parent, rel)` for the relative child paths of the
child-component config. -/
def resolveRelativePath (base : FsPath) (rel : String) : FsPath :=
  (jsSplitChar rel '/').foldl
    (fun acc seg =>
      if seg = ".." then acc.dropLast
      else if seg = "." || seg = "" then acc
      else acc ++ [seg])
    base

/-- `generateComponentDoc`: extract the component's sources, parse props and
resolve inheritance, parse methods, reconcile declared and emitted events,
parse styles, generate child docs (the per-child loop resolves each
configured relative path against the parent directory and skips missing
paths and failed generations), and filter the assembled record.  Returns
`none` (with the cause caught and logged in the source) when no sources are
found or a guarded read raises.  The cache is threaded; `fuel` bounds the
child/ancestor recursion that the source leaves unbounded. -/
def generateComponentDoc : Nat → GeneratorConfig → List FsEntry → FsPath →
    Option (List PropInfo) → FsPath → String → Option ComponentDoc × Option (List PropInfo)
  | 0, _, _, _, cache, _, _ => (none, cache)
  | f + 1, cfg, root, cp, cache, componentPath, category =>
    match extractComponentSources root componentPath with
    | none => (none, cache)
    | some sources =>
      if sources.props.isNone && sources.component.isNone then (none, cache)
      else
        let componentName := (componentPath.getLast?).getD ""
        let propsRes : List PropInfo × Option String × Option (List PropInfo) :=
          match sources.props with
          | some blob =>
            match extractProps blob.ast with
            | some info =>
              match info.baseClass with
              | some b =>
                let r := getInheritedProps f root cp cache b
                (info.props ++ r.1, some b, r.2.1)
              | none => (info.props, none, cache)
            | none => ([], none, cache)
          | none => ([], none, cache)
        let methods : List MethodInfo :=
          match sources.component with
          | some blob =>
            match extractMethods blob.ast with
            | some mi => mi.methods
            | none => []
          | none => []
        let propsEvents : List EventInfo :=
          (extractEvents propsRes.1).map
            (fun e => { name := e.1, type := e.2,
                        parameters := some (extractEventParameters e.2) })
        match collectCallbackEvents root cp
            (componentPath ++ [componentName ++ ".component.js"]) with
        | .error _ => (none, propsRes.2.2)
        | .ok callbackEvents =>
          let events := mergeEventLists propsEvents callbackEvents
          let styles : List StyleInfo :=
            match sources.styles with
            | some blob =>
              match extractStyleClasses blob.ast with
              | some si =>
                { className := si.defaultClass, description := some "Default style class" }
                  :: (si.styleClasses.filter (fun c => decide (c ≠ si.defaultClass))).map
                      (fun c => { className := c })
              | none => []
            | none => []
          let childrenRes : List ComponentDoc × Option (List PropInfo) :=
            match lookupChildConfig cfg componentName with
            | some entries =>
              entries.foldl
                (fun st entry =>
                  let childPath := resolveRelativePath componentPath entry.2
                  if existsSync root childPath then
                    match generateComponentDoc f cfg root cp st.2 childPath category with
                    | (some d, c2) => (st.1 ++ [d], c2)
                    | (none, c2) => (st.1, c2)
                  else st)
                ([], propsRes.2.2)
            | none => ([], propsRes.2.2)
          let doc : ComponentDoc :=
            .mk componentName componentPath category propsRes.1 methods events styles
              propsRes.2.1 (if childrenRes.1.isEmpty then none else some childrenRes.1)
          (some (filterComponentDoc cfg doc), childrenRes.2)

/-! ## Helper notions and lemmas about event reconciliation -/

/-- The names of an event list, in order. -/
def eventNames (l : List EventInfo) : List String := l.map EventInfo.name

/-- The names of a callback-event list, in order. -/
def cbNames (l : List CallbackEvent) : List String := l.map CallbackEvent.name

/-- Look up the (first) entry with a given name. -/
def evFind (n : String) (l : List EventInfo) : Option EventInfo :=
  l.find? (fun x => decide (x.name = n))

theorem eventNames_map_replace (m : List EventInfo) (e : EventInfo) :
    eventNames (m.map (fun x => if x.name = e.name then e else x)) = eventNames m := by
  induction m with
  | nil => rfl
  | cons x xs ih =>
    simp only [eventNames, List.map_cons, List.map_map] at *
    refine congrArg₂ List.cons ?_ ih
    by_cases h : x.name = e.name <;> simp [h]

theorem eventMapInsert_names (m : List EventInfo) (e : EventInfo) :
    eventNames (eventMapInsert m e) =
      if m.any (fun x => decide (x.name = e.name)) then eventNames m
      else eventNames m ++ [e.name] := by
  unfold eventMapInsert
  split
  · exact eventNames_map_replace m e
  · simp [eventNames]

theorem not_mem_eventNames_of_any_false {m : List EventInfo} {e : EventInfo}
    (h : m.any (fun x => decide (x.name = e.name)) = false) :
    e.name ∉ eventNames m := by
  rw [List.any_eq_false] at h
  intro hm
  rcases List.mem_map.mp hm with ⟨x, hx, hxe⟩
  have hx2 := h x hx
  simp only [decide_eq_true_eq] at hx2
  exact hx2 hxe

theorem nodup_eventMapInsert {m : List EventInfo} (e : EventInfo)
    (h : (eventNames m).Nodup) : (eventNames (eventMapInsert m e)).Nodup := by
  rw [eventMapInsert_names]
  split
  · exact h
  · rename_i hany
    rw [List.nodup_append]
    refine ⟨h, List.nodup_singleton _, ?_⟩
    intro a ha hb
    simp only [List.mem_singleton] at hb
    subst hb
    exact not_mem_eventNames_of_any_false (by simpa using hany) ha

theorem nodup_foldl_eventMapInsert (l : List EventInfo) :
    ∀ m : List EventInfo, (eventNames m).Nodup →
      (eventNames (l.foldl eventMapInsert m)).Nodup := by
  induction l with
  | nil => intro m h; exact h
  | cons x xs ih =>
    intro m h
    exact ih (eventMapInsert m x) (nodup_eventMapInsert x h)

theorem find?_map_replace_self (e : EventInfo) :
    ∀ m : List EventInfo, m.any (fun x => decide (x.name = e.name)) = true →
      (m.map (fun x => if x.name = e.name then e else x)).find?
        (fun x => decide (x.name = e.name)) = some e := by
  intro m
  induction m with
  | nil => intro h; simp at h
  | cons x xs ih =>
    intro h
    by_cases hx : x.name = e.name
    · simp [List.find?_cons, hx]
    · have hxs : xs.any (fun x => decide (x.name = e.name)) = true := by
        simpa [List.any_cons, hx] using h
      simpa [List.find?_cons, hx] using ih hxs

theorem evFind_eventMapInsert_self (m : List EventInfo) (e : EventInfo) :
    evFind e.name (eventMapInsert m e) = some e := by
  unfold eventMapInsert evFind
  split
  · rename_i h
    exact find?_map_replace_self e m h
  · rename_i h
    rw [Bool.not_eq_true, List.any_eq_false] at h
    rw [List.find?_append]
    have hnone : m.find? (fun x => decide (x.name = e.name)) = none := by
      rw [List.find?_eq_none]
      intro x hx
      simpa using h x hx
    simp [hnone]

theorem find?_map_replace_ne (e : EventInfo) {n : String} (hne : n ≠ e.name) :
    ∀ m : List EventInfo,
      (m.map (fun x => if x.name = e.name then e else x)).find?
          (fun x => decide (x.name = n))
        = m.find? (fun x => decide (x.name = n)) := by
  intro m
  induction m with
  | nil => rfl
  | cons x xs ih =>
    rw [List.map_cons, List.find?_cons, List.find?_cons]
    by_cases hx : x.name = e.name
    · rw [if_pos hx]
      have hen : (decide (e.name = n)) = false :=
        decide_eq_false (fun hc => hne hc.symm)
      have hxn : (decide (x.name = n)) = false :=
        decide_eq_false (by rw [hx]; exact fun hc => hne hc.symm)
      rw [hen, hxn]
      exact ih
    · rw [if_neg hx]
      cases hxn : (decide (x.name = n)) with
      | true => rfl
      | false => exact ih

theorem evFind_eventMapInsert_ne (m : List EventInfo) (e : EventInfo) {n : String}
    (hne : n ≠ e.name) : evFind n (eventMapInsert m e) = evFind n m := by
  unfold eventMapInsert evFind
  split
  · exact find?_map_replace_ne e hne m
  · rw [List.find?_append]
    have h1 : (decide (e.name = n)) = false := by
      simp only [decide_eq_false_iff_not]
      exact fun hc => hne hc.symm
    cases hm : m.find? (fun x => decide (x.name = n)) <;> simp [h1, hm]

theorem evFind_foldl_preserve (l : List EventInfo) :
    ∀ (m : List EventInfo) (n : String) (e : EventInfo), evFind n m = some e →
      (∀ x ∈ l, x.name ≠ n) → evFind n (l.foldl eventMapInsert m) = some e := by
  induction l with
  | nil => intro m n e h _; exact h
  | cons x xs ih =>
    intro m n e h hl
    have hx : n ≠ x.name := fun hc => (hl x (by simp)) hc.symm
    refine ih (eventMapInsert m x) n e ?_ (fun y hy => hl y (by simp [hy]))
    rw [evFind_eventMapInsert_ne m x hx]
    exact h

theorem evFind_foldl_mem (l : List EventInfo) :
    ∀ (m : List EventInfo) (e : EventInfo), e ∈ l → (eventNames l).Nodup →
      evFind e.name (l.foldl eventMapInsert m) = some e := by
  induction l with
  | nil => intro m e h; simp at h
  | cons x xs ih =>
    intro m e hmem hnd
    have hnd' : x.name ∉ eventNames xs ∧ (eventNames xs).Nodup := by
      simpa [eventNames, List.nodup_cons] using hnd
    rw [List.mem_cons] at hmem
    rcases hmem with hmem | hmem
    · subst hmem
      refine evFind_foldl_preserve xs (eventMapInsert m e) e.name e
        (evFind_eventMapInsert_self m e) ?_
      intro y hy hc
      exact hnd'.1 (by simpa [eventNames, hc] using List.mem_map_of_mem EventInfo.name hy)
    · exact ih (eventMapInsert m x) e hmem hnd'.2

theorem addRefEvents_append (refs : List CallbackEvent) :
    ∀ acc : List EventInfo, ∃ tail, addRefEvents acc refs = acc ++ tail ∧
      ∀ x ∈ tail, x.name ∉ eventNames acc := by
  induction refs with
  | nil => intro acc; exact ⟨[], by simp [addRefEvents], by simp⟩
  | cons r rest ih =>
    intro acc
    have hfold : addRefEvents acc (r :: rest) = addRefEvents (addRefStep acc r) rest := rfl
    by_cases h : acc.any (fun x => decide (x.name = r.name)) = true
    · have hstep : addRefStep acc r = acc := by simp [addRefStep, h]
      rw [hfold, hstep]
      exact ih acc
    · have hany : acc.any (fun x => decide (x.name = r.name)) = false := by
        simpa using h
      have hstep : addRefStep acc r =
          acc ++ [{ name := r.name, type := "Function", parameters := some r.parameters }] := by
        simp [addRefStep, hany]
      rcases ih (acc ++ [{ name := r.name, type := "Function", parameters := some r.parameters }]) with
        ⟨tail', heq, hdisj⟩
      refine ⟨[{ name := r.name, type := "Function", parameters := some r.parameters }] ++ tail',
        ?_, ?_⟩
      · rw [hfold, hstep, heq, List.append_assoc]
      · intro x hx
        rcases List.mem_append.mp hx with hx | hx
        · simp only [List.mem_singleton] at hx
          subst hx
          exact not_mem_eventNames_of_any_false
            (e := { name := r.name, type := "Function", parameters := some r.parameters }) hany
        · intro hmem
          exact hdisj x hx (by simp [eventNames] at hmem ⊢; exact Or.inl hmem)

theorem foldl_addRefEvents_append (refss : List (List CallbackEvent)) :
    ∀ acc : List EventInfo, ∃ tail, refss.foldl addRefEvents acc = acc ++ tail ∧
      ∀ x ∈ tail, x.name ∉ eventNames acc := by
  induction refss with
  | nil => intro acc; exact ⟨[], by simp, by simp⟩
  | cons refs rest ih =>
    intro acc
    rcases addRefEvents_append refs acc with ⟨t1, h1, hd1⟩
    rcases ih (addRefEvents acc refs) with ⟨t2, h2, hd2⟩
    refine ⟨t1 ++ t2, ?_, ?_⟩
    · rw [List.foldl_cons, h2, h1, List.append_assoc]
    · intro x hx
      rcases List.mem_append.mp hx with hx | hx
      · exact hd1 x hx
      · intro hmem
        refine hd2 x hx ?_
        rw [h1]
        simp only [eventNames, List.map_append, List.mem_append]
        exact Or.inl hmem

theorem nodup_addRefEvents (refs : List CallbackEvent) :
    ∀ acc : List EventInfo, (eventNames acc).Nodup →
      (eventNames (addRefEvents acc refs)).Nodup := by
  induction refs with
  | nil => intro acc h; exact h
  | cons r rest ih =>
    intro acc h
    have hfold : addRefEvents acc (r :: rest) = addRefEvents (addRefStep acc r) rest := rfl
    rw [hfold]
    refine ih (addRefStep acc r) ?_
    unfold addRefStep
    split
    · exact h
    · rename_i hany
      rw [Bool.not_eq_true] at hany
      have hnm := not_mem_eventNames_of_any_false
        (e := { name := r.name, type := "Function", parameters := some r.parameters }) hany
      simp only [eventNames, List.map_append, List.map_cons, List.map_nil]
      rw [List.nodup_append]
      refine ⟨h, List.nodup_singleton _, ?_⟩
      intro a ha hb
      simp only [List.mem_singleton] at hb
      subst hb
      exact hnm ha

theorem nodup_foldl_addRefEvents (refss : List (List CallbackEvent)) :
    ∀ acc : List EventInfo, (eventNames acc).Nodup →
      (eventNames (refss.foldl addRefEvents acc)).Nodup := by
  induction refss with
  | nil => intro acc h; exact h
  | cons refs rest ih =>
    intro acc h
    exact ih (addRefEvents acc refs) (nodup_addRefEvents refs acc h)

theorem ecStep_invariant (ms : List (String × String)) :
    ∀ st : List String × List CallbackEvent, st.1 = cbNames st.2 → st.1.Nodup →
      (ms.foldl ecStep st).1 = cbNames (ms.foldl ecStep st).2 ∧
        (ms.foldl ecStep st).1.Nodup := by
  induction ms with
  | nil => intro st h1 h2; exact ⟨h1, h2⟩
  | cons m rest ih =>
    intro st h1 h2
    by_cases hm : m.1 ∈ st.1
    · have hstep : ecStep st m = st := by simp [ecStep, hm]
      rw [List.foldl_cons, hstep]
      exact ih st h1 h2
    · have hstep : ecStep st m =
          (st.1 ++ [m.1], st.2 ++ [{ name := m.1, parameters := cleanCallbackParams m.2 }]) := by
        simp [ecStep, hm]
      rw [List.foldl_cons, hstep]
      refine ih _ ?_ ?_
      · simp [cbNames, h1]
      · rw [List.nodup_append]
        refine ⟨h2, List.nodup_singleton _, ?_⟩
        intro a ha hb
        simp only [List.mem_singleton] at hb
        subst hb
        exact hm ha

theorem nodup_cbNames_extractEventCallbacks (ms : List (String × String)) :
    (cbNames (extractEventCallbacks ms)).Nodup := by
  have h := ecStep_invariant ms ([], []) rfl List.nodup_nil
  unfold extractEventCallbacks
  rw [← h.1]
  exact h.2

theorem eventNames_callbackEventInfos (ms : List (String × String)) :
    eventNames (callbackEventInfos ms) = cbNames (extractEventCallbacks ms) := by
  simp [eventNames, callbackEventInfos, cbNames, List.map_map]

theorem nodup_eventNames_callbackEventInfos (ms : List (String × String)) :
    (eventNames (callbackEventInfos ms)).Nodup := by
  rw [eventNames_callbackEventInfos]
  exact nodup_cbNames_extractEventCallbacks ms

/-! ## Lemmas about the visitor traversal -/

mutual
theorem visitFold_eq_foldl {S : Type} (f : S → TSNode → S) (s : S) (n : TSNode) :
    visitFold f s n = (preorderNodes n).foldl f s := by
  cases n with
  | classDecl a b c cs =>
    rw [visitFold, preorderNodes, List.foldl_cons, visitFoldList_eq_foldl]
  | interfaceDecl a b c cs =>
    rw [visitFold, preorderNodes, List.foldl_cons, visitFoldList_eq_foldl]
  | typeAliasDecl a b c cs =>
    rw [visitFold, preorderNodes, List.foldl_cons, visitFoldList_eq_foldl]
  | variableStatement a cs =>
    rw [visitFold, preorderNodes, List.foldl_cons, visitFoldList_eq_foldl]
  | callExpression a b cs =>
    rw [visitFold, preorderNodes, List.foldl_cons, visitFoldList_eq_foldl]
  | otherNode cs =>
    rw [visitFold, preorderNodes, List.foldl_cons, visitFoldList_eq_foldl]

theorem visitFoldList_eq_foldl {S : Type} (f : S → TSNode → S) (s : S) (l : List TSNode) :
    visitFoldList f s l = (preorderList l).foldl f s := by
  cases l with
  | nil => rfl
  | cons c cs =>
    rw [visitFoldList, preorderList, List.foldl_append, visitFold_eq_foldl,
      visitFoldList_eq_foldl]
end

theorem foldl_propsStep_getLast (l : List TSNode) :
    ∀ s : Option ExtractedProps,
      l.foldl propsStep s =
        match (l.filterMap matchPropsDecl).getLast? with
        | some r => some r
        | none => s := by
  induction l using List.reverseRecOn with
  | nil => intro s; rfl
  | append_singleton xs x ih =>
    intro s
    rw [List.foldl_append, List.foldl_cons, List.foldl_nil,
      List.filterMap_append xs [x] matchPropsDecl, ih s]
    rcases hx : matchPropsDecl x with _ | r
    · simp [propsStep, hx, List.filterMap_cons]
    · simp [propsStep, hx, List.filterMap_cons, List.getLast?_concat]

/-! ## Lemmas about JavaScript string operations -/

theorem isPrefixOfL_self (l : List Char) : isPrefixOfL l l = true := by
  induction l with
  | nil => rfl
  | cons c cs ih => simp [isPrefixOfL, ih]

theorem replaceFirstL_of_head_ne (p : List Char) (c0 : Char) (q : List Char)
    (hp : p = c0 :: q) :
    ∀ x : List Char, (∀ c ∈ x, c ≠ c0) → replaceFirstL p [] (x ++ p) = x := by
  intro x
  induction x with
  | nil =>
    intro _
    simp only [List.nil_append]
    conv_lhs => rw [hp]
    rw [replaceFirstL, ← hp, isPrefixOfL_self]
    simp [List.drop_length]
  | cons c cs ih =>
    intro hne
    have hc : c ≠ c0 := hne c (by simp)
    have hpre : isPrefixOfL p (c :: (cs ++ p)) = false := by
      rw [hp]
      simp only [isPrefixOfL]
      rw [decide_eq_false (fun hcc => hc hcc.symm)]
      simp
    rw [List.cons_append, replaceFirstL, hpre]
    simp only [Bool.false_eq_true, if_false]
    exact congrArg (c :: ·) (ih (fun a ha => hne a (by simp [ha])))

theorem jsEndsWith_append (s p : String) : jsEndsWith (s ++ p) p = true := by
  unfold jsEndsWith
  rw [String.data_append]
  simp [List.suffix_append]

theorem cleanInitText_as_any (x : String) (hx : ∀ c ∈ x.data, c ≠ ' ') :
    cleanInitText (x ++ " as any") = x := by
  unfold cleanInitText
  by_cases hnull : (x ++ " as any" : String) = "null as any"
  · have hdata : x.data ++ " as any".data = "null".data ++ " as any".data := by
      have := congrArg String.data hnull
      rw [String.data_append] at this
      exact this
    have hxn : x = "null" := by
      have h3 := List.append_cancel_right hdata
      cases x with
      | mk d =>
        apply congrArg String.mk
        simpa using h3
    rw [if_pos hnull, hxn]
  · rw [if_neg hnull, if_pos (jsEndsWith_append x " as any")]
    unfold jsReplaceFirst
    rw [String.data_append]
    rw [replaceFirstL_of_head_ne " as any".data ' ' "as any".data rfl x.data hx]

theorem cleanInitText_verbatim (t : String) (h1 : jsEndsWith t " as any" = false)
    (h2 : t ≠ "null as any") : cleanInitText t = t := by
  unfold cleanInitText
  rw [if_neg h2, h1]
  simp

/-! ## Lemmas about the root-property cache -/

theorem getBaseProps_idem (root : List FsEntry) (cp : FsPath) (cache : Option (List PropInfo)) :
    getBaseProps root cp (getBaseProps root cp cache).2 = getBaseProps root cp cache := by
  unfold getBaseProps
  cases cache with
  | some ps => rfl
  | none =>
    cases h : tryComputeBaseProps root cp with
    | none => simp [h]
    | some ps => simp [h]

theorem getInheritedProps_stable (fuel : Nat) :
    ∀ (root : List FsEntry) (cp : FsPath) (cache : Option (List PropInfo)) (n : String),
      getInheritedProps fuel root cp (getInheritedProps fuel root cp cache n).2.1 n
        = getInheritedProps fuel root cp cache n := by
  induction fuel with
  | zero => intro root cp cache n; rfl
  | succ f ih =>
    intro root cp cache n
    by_cases hn : n = "BaseProps"
    · have hR : getInheritedProps (f + 1) root cp cache n
          = ((getBaseProps root cp cache).1.map (tagInherited "BaseProps"),
             (getBaseProps root cp cache).2, []) := by
        simp only [getInheritedProps, if_pos hn]
      rw [hR]
      simp only [getInheritedProps, if_pos hn]
      rw [getBaseProps_idem]
    · cases hfind : findParentPropsFile root cp n with
      | none =>
        have hR : getInheritedProps (f + 1) root cp cache n
            = ([], cache, [unresolvedParentWarning n]) := by
          simp only [getInheritedProps, if_neg hn, hfind]
        rw [hR]
        simp only [getInheritedProps, if_neg hn, hfind]
      | some path =>
        cases hsrc : extractSourceContent root path with
        | none =>
          have hR : getInheritedProps (f + 1) root cp cache n = ([], cache, []) := by
            simp only [getInheritedProps, if_neg hn, hfind, hsrc]
          rw [hR]
          simp only [getInheritedProps, if_neg hn, hfind, hsrc]
        | some blob =>
          cases hprops : extractProps blob.ast with
          | none =>
            have hR : getInheritedProps (f + 1) root cp cache n = ([], cache, []) := by
              simp only [getInheritedProps, if_neg hn, hfind, hsrc, hprops]
            rw [hR]
            simp only [getInheritedProps, if_neg hn, hfind, hsrc, hprops]
          | some info =>
            cases hbase : info.baseClass with
            | none =>
              have hR : getInheritedProps (f + 1) root cp cache n
                  = (info.props.map (tagInherited n), cache, []) := by
                simp only [getInheritedProps, if_neg hn, hfind, hsrc, hprops, hbase]
              rw [hR]
              simp only [getInheritedProps, if_neg hn, hfind, hsrc, hprops, hbase]
            | some b =>
              have hR : getInheritedProps (f + 1) root cp cache n
                  = (info.props.map (tagInherited n) ++ (getInheritedProps f root cp cache b).1,
                     (getInheritedProps f root cp cache b).2.1,
                     (getInheritedProps f root cp cache b).2.2) := by
                simp only [getInheritedProps, if_neg hn, hfind, hsrc, hprops, hbase]
              rw [hR]
              simp only [getInheritedProps, if_neg hn, hfind, hsrc, hprops, hbase]
              rw [ih root cp cache b]

/-! ## Concrete fixtures -/

/-- A blob with an empty parse tree (e.g. the raw text of a compiled file,
which is never parsed directly). -/
def emptyBlob : SourceBlob := { ast := .otherNode [] }

/-- A single-class source: one `*Props`-candidate class declaration with one
initialized property member. -/
def propsClassTree (cn mname ty init : String) : TSNode :=
  .otherNode [.classDecl (some cn) []
    [.propertyDecl (some mname) false (some ty) (some init)] []]

/-! ## Lemmas about `extractProps` on a single-class source -/

theorem extractProps_propsClassTree (cn mname ty init : String) :
    extractProps (propsClassTree cn mname ty init)
      = if jsEndsWith cn "Props" = true
        then some { props := [{ name := mname, type := ty,
                                defaultValue := some (cleanInitText init),
                                optional := false, inherited := false }],
                    className := cn, baseClass := none }
        else none := by
  by_cases h : jsEndsWith cn "Props" = true
  · simp only [extractProps, propsClassTree, visitFold, visitFoldList, propsStep,
      matchPropsDecl, h, if_true, classMemberProps, heritageBaseClass, List.foldl,
      Option.getD, Option.map, List.nil_append]
  · simp only [extractProps, propsClassTree, visitFold, visitFoldList, propsStep,
      matchPropsDecl, h, if_false, Bool.false_eq_true]

/-! ## Claim C10 -/

/-- C10: when a source blob contains several class / interface /
object-type-alias declarations whose name ends in `Props`, properties
extraction returns the data of the declaration occurring last in the
visitor's traversal (document) order — earlier matches are overwritten.
Formally, `extractProps` equals the last element of the traversal-ordered
list of matching declarations (and `none` when there is none). -/
theorem spec_C10_last_props_declaration_wins (root : TSNode) :
    extractProps root = (propsDeclarations root).getLast? := by
  unfold extractProps propsDeclarations
  rw [visitFold_eq_foldl, foldl_propsStep_getLast]
  cases ((preorderNodes root).filterMap matchPropsDecl).getLast? <;> rfl

/-! ## Claim C2 (corrected) -/

/-- C2 counterexample: the claim says every `x as <Type>` initializer is
normalized to the bare value `x`; but for the initializer `0 as number` the
recorded default value is the verbatim text `0 as number`, not `0` — only
`as any` casts are stripped. -/
theorem spec_C2_counterexample :
    (extractProps (propsClassTree "WmSliderProps" "minimumValue" "number" "0 as number")).map
        (fun r => r.props.map PropInfo.defaultValue) = some [some "0 as number"]
    ∧ (extractProps (propsClassTree "WmSliderProps" "minimumValue" "number" "0 as number")).map
        (fun r => r.props.map PropInfo.defaultValue) ≠ some [some "0"] := by
  constructor
  · rfl
  · decide

/-- C2 (amended): only `x as any` casts are normalized — `null as any`
becomes `null` and any other initializer ending in `' as any'` has that
(first) `' as any'` occurrence removed, which yields the bare value `x`
whenever `x` contains no space (in particular for every literal token);
initializers not ending in `' as any'`, including casts to any other type,
are recorded verbatim. -/
theorem spec_C2_as_any_normalization (nm mname ty x t : String) :
    ((∀ c ∈ x.data, c ≠ ' ') →
      extractProps (propsClassTree (nm ++ "Props") mname ty (x ++ " as any"))
        = some { props := [{ name := mname, type := ty, defaultValue := some x,
                             optional := false, inherited := false }],
                 className := nm ++ "Props", baseClass := none })
    ∧ (jsEndsWith t " as any" = false → t ≠ "null as any" →
      extractProps (propsClassTree (nm ++ "Props") mname ty t)
        = some { props := [{ name := mname, type := ty, defaultValue := some t,
                             optional := false, inherited := false }],
                 className := nm ++ "Props", baseClass := none }) := by
  constructor
  · intro hx
    rw [extractProps_propsClassTree, if_pos (jsEndsWith_append nm "Props"),
      cleanInitText_as_any x hx]
  · intro h1 h2
    rw [extractProps_propsClassTree, if_pos (jsEndsWith_append nm "Props"),
      cleanInitText_verbatim t h1 h2]

/-- C2 witness: the amended theorem at concrete inputs — `false as any`
records default `false`, and `0 as number` stays verbatim. -/
theorem spec_C2_as_any_normalization_witness :
    extractProps (propsClassTree ("WmSwitch" ++ "Props") "showIcon" "boolean" ("false" ++ " as any"))
      = some { props := [{ name := "showIcon", type := "boolean", defaultValue := some "false",
                           optional := false, inherited := false }],
               className := "WmSwitch" ++ "Props", baseClass := none }
    ∧ extractProps (propsClassTree ("WmSlider" ++ "Props") "minimumValue" "number" "0 as number")
      = some { props := [{ name := "minimumValue", type := "number",
                           defaultValue := some "0 as number",
                           optional := false, inherited := false }],
               className := "WmSlider" ++ "Props", baseClass := none } :=
  ⟨(spec_C2_as_any_normalization "WmSwitch" "showIcon" "boolean" "false" "x").1 (by decide),
   (spec_C2_as_any_normalization "WmSlider" "minimumValue" "number" "x" "0 as number").2
     (by decide) (by decide)⟩

/-! ## Claim C3 -/

theorem filterComponentDoc_props (cfg : GeneratorConfig) (doc : ComponentDoc) :
    (filterComponentDoc cfg doc).props = doc.props.filter (fun p =>
      !listIncludes cfg.documentation.excludeProps p.name &&
      !(p.inherited && listIncludes cfg.documentation.excludeInheritedProps p.name) &&
      !optIncludes ((lookupOverride cfg doc.componentName).bind ComponentOverride.excludeProps)
        p.name) := by
  cases doc
  rfl

theorem filterComponentDoc_methods (cfg : GeneratorConfig) (doc : ComponentDoc) :
    (filterComponentDoc cfg doc).methods = doc.methods.filter (fun m =>
      !listIncludes cfg.documentation.excludeMethods m.name &&
      !optIncludes ((lookupOverride cfg doc.componentName).bind ComponentOverride.excludeMethods)
        m.name) := by
  cases doc
  rfl

theorem filterComponentDoc_styles (cfg : GeneratorConfig) (doc : ComponentDoc) :
    (filterComponentDoc cfg doc).styles = doc.styles.filter (fun s =>
      !listIncludes cfg.documentation.excludeStyleClasses s.className &&
      !optIncludes
        ((lookupOverride cfg doc.componentName).bind ComponentOverride.excludeStyleClasses)
        s.className) := by
  cases doc
  rfl

/-- C3: filtering is monotonic — a property surviving `filterComponentDoc`
is in none of the applicable exclude-lists: not in the global property
exclude-list (own or inherited alike), not in the global inherited-property
exclude-list when it is inherited, and not in the per-component override
exclude-list (own or inherited alike); likewise for methods and style
classes and their exclude-lists.  Hence a name present in an applicable
exclude-list never appears in the filtered doc. -/
theorem spec_C3_exclusion_monotonic (cfg : GeneratorConfig) (doc : ComponentDoc) :
    (∀ p ∈ (filterComponentDoc cfg doc).props,
        p.name ∉ cfg.documentation.excludeProps
        ∧ (p.inherited = true → p.name ∉ cfg.documentation.excludeInheritedProps)
        ∧ ∀ l, (lookupOverride cfg doc.componentName).bind ComponentOverride.excludeProps
            = some l → p.name ∉ l)
    ∧ (∀ m ∈ (filterComponentDoc cfg doc).methods,
        m.name ∉ cfg.documentation.excludeMethods
        ∧ ∀ l, (lookupOverride cfg doc.componentName).bind ComponentOverride.excludeMethods
            = some l → m.name ∉ l)
    ∧ (∀ s ∈ (filterComponentDoc cfg doc).styles,
        s.className ∉ cfg.documentation.excludeStyleClasses
        ∧ ∀ l, (lookupOverride cfg doc.componentName).bind ComponentOverride.excludeStyleClasses
            = some l → s.className ∉ l) := by
  refine ⟨?_, ?_, ?_⟩
  · intro p hp
    rw [filterComponentDoc_props] at hp
    obtain ⟨-, hpred⟩ := List.mem_filter.mp hp
    simp only [Bool.and_eq_true, Bool.not_eq_true'] at hpred
    obtain ⟨⟨h1, h2⟩, h3⟩ := hpred
    refine ⟨?_, ?_, ?_⟩
    · intro hmem
      rw [show listIncludes cfg.documentation.excludeProps p.name = true by
        simpa [listIncludes] using hmem] at h1
      cases h1
    · intro hinh hmem
      rw [hinh, Bool.true_and] at h2
      rw [show listIncludes cfg.documentation.excludeInheritedProps p.name = true by
        simpa [listIncludes] using hmem] at h2
      cases h2
    · intro l hl hmem
      rw [hl] at h3
      simp only [optIncludes] at h3
      rw [show listIncludes l p.name = true by simpa [listIncludes] using hmem] at h3
      cases h3
  · intro m hm
    rw [filterComponentDoc_methods] at hm
    obtain ⟨-, hpred⟩ := List.mem_filter.mp hm
    simp only [Bool.and_eq_true, Bool.not_eq_true'] at hpred
    obtain ⟨h1, h3⟩ := hpred
    refine ⟨?_, ?_⟩
    · intro hmem
      rw [show listIncludes cfg.documentation.excludeMethods m.name = true by
        simpa [listIncludes] using hmem] at h1
      cases h1
    · intro l hl hmem
      rw [hl] at h3
      simp only [optIncludes] at h3
      rw [show listIncludes l m.name = true by simpa [listIncludes] using hmem] at h3
      cases h3
  · intro s hs
    rw [filterComponentDoc_styles] at hs
    obtain ⟨-, hpred⟩ := List.mem_filter.mp hs
    simp only [Bool.and_eq_true, Bool.not_eq_true'] at hpred
    obtain ⟨h1, h3⟩ := hpred
    refine ⟨?_, ?_⟩
    · intro hmem
      rw [show listIncludes cfg.documentation.excludeStyleClasses s.className = true by
        simpa [listIncludes] using hmem] at h1
      cases h1
    · intro l hl hmem
      rw [hl] at h3
      simp only [optIncludes] at h3
      rw [show listIncludes l s.className = true by simpa [listIncludes] using hmem] at h3
      cases h3

theorem collectRefEvents_append (root : List FsEntry) (ps : List FsPath) :
    ∀ (acc ce : List EventInfo), collectRefEvents root acc ps = .ok ce →
      ∃ tail, ce = acc ++ tail ∧ ∀ x ∈ tail, x.name ∉ eventNames acc := by
  induction ps with
  | nil =>
    intro acc ce h
    simp only [collectRefEvents, Except.ok.injEq] at h
    exact ⟨[], by simp [h], by simp⟩
  | cons p rest ih =>
    intro acc ce h
    rw [collectRefEvents] at h
    cases hl : lookupPath root p with
    | none =>
      rw [hl] at h
      exact ih acc ce h
    | some r =>
      cases r with
      | dirR es => rw [hl] at h; cases h
      | fileR fd =>
        rw [hl] at h
        rcases ih _ ce h with ⟨t2, h2, hd2⟩
        rcases addRefEvents_append (extractEventCallbacks fd.text.emits) acc with ⟨t1, h1, hd1⟩
        refine ⟨t1 ++ t2, ?_, ?_⟩
        · rw [h2, h1, List.append_assoc]
        · intro x hx
          rcases List.mem_append.mp hx with hx | hx
          · exact hd1 x hx
          · intro hmem
            refine hd2 x hx ?_
            rw [h1]
            simp only [eventNames, List.map_append, List.mem_append]
            exact Or.inl hmem

theorem collectRefEvents_nodup (root : List FsEntry) (ps : List FsPath) :
    ∀ (acc ce : List EventInfo), (eventNames acc).Nodup →
      collectRefEvents root acc ps = .ok ce → (eventNames ce).Nodup := by
  induction ps with
  | nil =>
    intro acc ce hnd h
    simp only [collectRefEvents, Except.ok.injEq] at h
    rw [← h]
    exact hnd
  | cons p rest ih =>
    intro acc ce hnd h
    rw [collectRefEvents] at h
    cases hl : lookupPath root p with
    | none =>
      rw [hl] at h
      exact ih acc ce hnd h
    | some r =>
      cases r with
      | dirR es => rw [hl] at h; cases h
      | fileR fd =>
        rw [hl] at h
        exact ih _ ce (nodup_addRefEvents _ acc hnd) h

theorem filterComponentDoc_events (cfg : GeneratorConfig) (doc : ComponentDoc) :
    (filterComponentDoc cfg doc).events = doc.events := by
  cases doc
  rfl

theorem generateComponentDoc_some_events (fuel : Nat) (cfg : GeneratorConfig)
    (root : List FsEntry) (cp : FsPath) (cache : Option (List PropInfo))
    (path : FsPath) (cat : String) (doc : ComponentDoc) (c2 : Option (List PropInfo))
    (h : generateComponentDoc fuel cfg root cp cache path cat = (some doc, c2)) :
    ∃ pe ce, doc.events = mergeEventLists pe ce := by
  cases fuel with
  | zero => simp [generateComponentDoc] at h
  | succ f =>
    rw [generateComponentDoc] at h
    cases hs : extractComponentSources root path with
    | none => simp only [hs] at h; simp at h
    | some s =>
      simp only [hs] at h
      by_cases hcond : (s.props.isNone && s.component.isNone) = true
      · rw [if_pos hcond] at h
        simp at h
      · rw [if_neg hcond] at h
        cases hc : collectCallbackEvents root cp
            (path ++ [(path.getLast?).getD "" ++ ".component.js"]) with
        | error u => simp only [hc] at h; simp at h
        | ok ce =>
          simp only [hc] at h
          simp only [Prod.mk.injEq, Option.some.injEq] at h
          exact ⟨_, ce, by rw [← h.1, filterComponentDoc_events]; rfl⟩

/-! ## Claims C1 and C5: event reconciliation -/

/-- The C1 counterexample world: a component whose own source declares an
`onTap` function-typed prop (and emits nothing), importing a referenced
component that emits `onTap` with argument `x`. -/
def onTapDeclBlob : SourceBlob :=
  { ast := .otherNode [.interfaceDecl (some "WmButtonProps") []
      [.propertySig (some "onTap") true (some "() => void")] []] }

def buttonJsBlob : SourceBlob :=
  { ast := .otherNode [], emits := [], imports := ["core/tappable.component"] }

def tappableJsBlob : SourceBlob :=
  { ast := .otherNode [], emits := [("onTap", "x")] }

def worldC1 : List FsEntry :=
  [.dirE "lib"
    [.dirE "components"
      [.dirE "basic"
        [.dirE "button"
          [.fileE "index.tsx" { text := onTapDeclBlob },
           .fileE "button.component.js" { text := buttonJsBlob }]]],
     .dirE "core"
      [.fileE "tappable.component.js" { text := tappableJsBlob }]]]

/-- C1 counterexample: the component's own source declares `onTap` (locally
resolved with parameter signature `()`), no own call site emits it, and a
statically referenced component emits `onTap` with signature `(x)`; the
final event list's only `onTap` entry is the referenced component's one —
the cross-component merge replaced the entry resolved from the component's
own declared properties, because the merge checks only the own emission
call-site list for existing names. -/
theorem spec_C1_counterexample :
    ((generateComponentDoc 2 {} worldC1 ["lib"] none
        ["lib", "components", "basic", "button"] "basic").1.map ComponentDoc.events)
      = some [{ name := "onTap", type := "Function", parameters := some "(x)" }]
    ∧ (extractProps onTapDeclBlob.ast).map (fun i => extractEvents i.props)
      = some [("onTap", "() => void")]
    ∧ extractEventParameters "() => void" = "()"
    ∧ ({ name := "onTap", type := "Function", parameters := some "(x)" } : EventInfo)
      ≠ { name := "onTap", type := "() => void", parameters := some "()" } := by
  refine ⟨rfl, rfl, rfl, by decide⟩

/-- C1 (amended): the cross-component merge never replaces an entry already
present in the callback-event list — the referenced-component scan only
appends events whose names are not yet there — and every event extracted
from the component's own emission call sites is retained verbatim (its
locally resolved parameter signature included) through the scan and the
final name-keyed reconciliation.  An event resolved only from the
component's own declared properties enjoys no such protection (see the
counterexample). -/
theorem spec_C1_cross_merge_keeps_own_callsites :
    (∀ (root : List FsEntry) (ps : List FsPath) (acc ce : List EventInfo),
        collectRefEvents root acc ps = .ok ce →
          ∃ tail, ce = acc ++ tail ∧ ∀ x ∈ tail, x.name ∉ eventNames acc)
    ∧ (∀ (pe : List EventInfo) (root : List FsEntry) (cp : FsPath) (jsPath : FsPath)
        (fd : FileData) (ce : List EventInfo),
        lookupPath root jsPath = some (.fileR fd) →
        collectCallbackEvents root cp jsPath = .ok ce →
        ∀ e ∈ callbackEventInfos fd.text.emits,
          evFind e.name (mergeEventLists pe ce) = some e) := by
  constructor
  · intro root ps acc ce h
    exact collectRefEvents_append root ps acc ce h
  · intro pe root cp jsPath fd ce hl hc e he
    rw [collectCallbackEvents, hl] at hc
    rcases collectRefEvents_append root _ _ ce hc with ⟨tail, heq, -⟩
    have hmem : e ∈ ce := by
      rw [heq]
      exact List.mem_append_left tail he
    have hnd2 : (eventNames ce).Nodup :=
      collectRefEvents_nodup root _ _ ce (nodup_eventNames_callbackEventInfos _) hc
    unfold mergeEventLists
    exact evFind_foldl_mem _ _ e hmem hnd2

/-- The C1 witness world: a component emitting `onTap (e, target)` at an own
call site, importing a referenced component that also emits `onTap`. -/
def c1wOwnJs : SourceBlob :=
  { ast := .otherNode [], emits := [("onTap", "e, target")],
    imports := ["core/tappable.component"] }

def worldC1w : List FsEntry :=
  [.dirE "lib"
    [.dirE "app" [.fileE "button.component.js" { text := c1wOwnJs }],
     .dirE "core" [.fileE "tappable.component.js" { text := tappableJsBlob }]]]

/-- C1 witness: the amended theorem at a concrete input — the own call-site
`onTap` (signature `(e)`) survives both the cross-component merge with a
referenced `onTap (x)` and the reconciliation with a declared `onTap`. -/
theorem spec_C1_cross_merge_witness :
    evFind "onTap"
        (mergeEventLists [⟨"onTap", "() => void", some "()"⟩]
          [⟨"onTap", "Function", some "(e)"⟩])
      = some ⟨"onTap", "Function", some "(e)"⟩ := by
  have h := spec_C1_cross_merge_keeps_own_callsites.2
    [⟨"onTap", "() => void", some "()"⟩] worldC1w ["lib"]
    ["lib", "app", "button.component.js"] { text := c1wOwnJs }
    [⟨"onTap", "Function", some "(e)"⟩] rfl rfl
    ⟨"onTap", "Function", some "(e)"⟩ (by decide)
  exact h

/-- C5: the event list of every generated component doc contains no two
entries with the same name (for every file system, configuration, path and
cache state), and every event extracted from a component's own emission
call sites is retained verbatim through the cross-component merge and the
final name-keyed reconciliation — in particular, when a declared event and
an own emitted event share a name, the retained entry is the emitted one,
with its parameter signature. -/
theorem spec_C5_merged_event_uniqueness :
    (∀ (fuel : Nat) (cfg : GeneratorConfig) (root : List FsEntry) (cp : FsPath)
        (cache : Option (List PropInfo)) (path : FsPath) (cat : String)
        (doc : ComponentDoc) (c2 : Option (List PropInfo)),
        generateComponentDoc fuel cfg root cp cache path cat = (some doc, c2) →
          (eventNames doc.events).Nodup)
    ∧ (∀ (pe : List EventInfo) (ms : List (String × String))
        (refss : List (List CallbackEvent)), ∀ e ∈ callbackEventInfos ms,
        evFind e.name
          (mergeEventLists pe (refss.foldl addRefEvents (callbackEventInfos ms)))
          = some e) := by
  constructor
  · intro fuel cfg root cp cache path cat doc c2 h
    obtain ⟨pe, ce, hev⟩ :=
      generateComponentDoc_some_events fuel cfg root cp cache path cat doc c2 h
    rw [hev]
    unfold mergeEventLists
    exact nodup_foldl_eventMapInsert ce _
      (nodup_foldl_eventMapInsert pe [] (by simp [eventNames]))
  · intro pe ms refss e he
    rcases foldl_addRefEvents_append refss (callbackEventInfos ms) with ⟨tail, heq, -⟩
    have hmem : e ∈ refss.foldl addRefEvents (callbackEventInfos ms) := by
      rw [heq]
      exact List.mem_append_left tail he
    have hnd2 : (eventNames (refss.foldl addRefEvents (callbackEventInfos ms))).Nodup :=
      nodup_foldl_addRefEvents refss (callbackEventInfos ms)
        (nodup_eventNames_callbackEventInfos ms)
    unfold mergeEventLists
    exact evFind_foldl_mem _ _ e hmem hnd2

/-- C5 witness: the theorem applied at a concrete input — a generated doc's
event names are duplicate-free, and the own emitted `onTap` (signature
`(e)`, target argument dropped) is the entry retained over the declared
`onTap`. -/
theorem spec_C5_merged_event_uniqueness_witness :
    (eventNames [{ name := "onTap", type := "Function", parameters := some "(x)" }]).Nodup
    ∧ evFind "onTap"
        (mergeEventLists [⟨"onTap", "() => void", some "()"⟩]
          ([[⟨"onLongtap", "(e)"⟩]].foldl addRefEvents
            (callbackEventInfos [("onTap", "e, target")])))
      = some ⟨"onTap", "Function", some "(e)"⟩ := by
  constructor
  · have h := spec_C5_merged_event_uniqueness.1 2 {} worldC1 ["lib"] none
      ["lib", "components", "basic", "button"] "basic"
      (ComponentDoc.mk "button" ["lib", "components", "basic", "button"] "basic"
        [{ name := "onTap", type := "() => void", defaultValue := none, optional := true,
           inherited := false }]
        [] [{ name := "onTap", type := "Function", parameters := some "(x)" }] [] none none)
      none rfl
    simpa using h
  · exact spec_C5_merged_event_uniqueness.2
      [⟨"onTap", "() => void", some "()"⟩] [("onTap", "e, target")]
      [[⟨"onLongtap", "(e)"⟩]]
      ⟨"onTap", "Function", some "(e)"⟩ (by decide)

/-! ## Claim C4 (corrected): ancestor-chain resolution tagging -/

theorem getInheritedProps_all_tagged (fuel : Nat) :
    ∀ (root : List FsEntry) (cp : FsPath) (cache : Option (List PropInfo)) (n : String)
      (p : PropInfo), p ∈ (getInheritedProps fuel root cp cache n).1 →
        p.inherited = true ∧ p.inheritedFrom.isSome = true := by
  induction fuel with
  | zero => intro root cp cache n p hp; simp [getInheritedProps] at hp
  | succ f ih =>
    intro root cp cache n p hp
    by_cases hn : n = "BaseProps"
    · rw [show getInheritedProps (f + 1) root cp cache n
          = ((getBaseProps root cp cache).1.map (tagInherited "BaseProps"),
             (getBaseProps root cp cache).2, []) from by
        simp only [getInheritedProps, if_pos hn]] at hp
      rcases List.mem_map.mp hp with ⟨q, -, rfl⟩
      simp [tagInherited]
    · cases hfind : findParentPropsFile root cp n with
      | none =>
        rw [show getInheritedProps (f + 1) root cp cache n
            = ([], cache, [unresolvedParentWarning n]) from by
          simp only [getInheritedProps, if_neg hn, hfind]] at hp
        simp at hp
      | some path =>
        cases hsrc : extractSourceContent root path with
        | none =>
          rw [show getInheritedProps (f + 1) root cp cache n = ([], cache, []) from by
            simp only [getInheritedProps, if_neg hn, hfind, hsrc]] at hp
          simp at hp
        | some blob =>
          cases hprops : extractProps blob.ast with
          | none =>
            rw [show getInheritedProps (f + 1) root cp cache n = ([], cache, []) from by
              simp only [getInheritedProps, if_neg hn, hfind, hsrc, hprops]] at hp
            simp at hp
          | some info =>
            cases hbase : info.baseClass with
            | none =>
              rw [show getInheritedProps (f + 1) root cp cache n
                  = (info.props.map (tagInherited n), cache, []) from by
                simp only [getInheritedProps, if_neg hn, hfind, hsrc, hprops, hbase]] at hp
              rcases List.mem_map.mp hp with ⟨q, -, rfl⟩
              simp [tagInherited]
            | some b =>
              rw [show getInheritedProps (f + 1) root cp cache n
                  = (info.props.map (tagInherited n)
                      ++ (getInheritedProps f root cp cache b).1,
                     (getInheritedProps f root cp cache b).2.1,
                     (getInheritedProps f root cp cache b).2.2) from by
                simp only [getInheritedProps, if_neg hn, hfind, hsrc, hprops, hbase]] at hp
              rcases List.mem_append.mp hp with hp | hp
              · rcases List.mem_map.mp hp with ⟨q, -, rfl⟩
                simp [tagInherited]
              · exact ih root cp cache b p hp

/-- C4 (amended): every descriptor returned by ancestor-chain resolution is
tagged `inherited = true` and carries an `inheritedFrom` name; the
descriptors extracted from the resolved ancestor's own artifact are tagged
with the resolution argument itself, and when that artifact declares a
further ancestor the recursion appends the grandparent's descriptors —
which carry the grandparent's name, not the original argument's. -/
theorem spec_C4_ancestor_resolution_tagging :
    (∀ (fuel : Nat) (root : List FsEntry) (cp : FsPath) (cache : Option (List PropInfo))
        (n : String) (p : PropInfo),
        p ∈ (getInheritedProps fuel root cp cache n).1 →
          p.inherited = true ∧ p.inheritedFrom.isSome = true)
    ∧ (∀ (fuel : Nat) (root : List FsEntry) (cp : FsPath) (cache : Option (List PropInfo))
        (n : String) (path : FsPath) (blob : SourceBlob) (info : ExtractedProps),
        n ≠ "BaseProps" → findParentPropsFile root cp n = some path →
        extractSourceContent root path = some blob → extractProps blob.ast = some info →
          (getInheritedProps (fuel + 1) root cp cache n).1
            = info.props.map (tagInherited n)
              ++ (match info.baseClass with
                  | some b => (getInheritedProps fuel root cp cache b).1
                  | none => [])) := by
  constructor
  · exact getInheritedProps_all_tagged
  · intro fuel root cp cache n path blob info hn hfind hsrc hprops
    cases hbase : info.baseClass with
    | none =>
      simp only [getInheritedProps, if_neg hn, hfind, hsrc, hprops, hbase, List.append_nil]
    | some b =>
      simp only [getInheritedProps, if_neg hn, hfind, hsrc, hprops, hbase]

/-- The C4 counterexample/witness world: ancestor `AProps` whose artifact
declares the further ancestor `BProps`. -/
def aPropsBlob : SourceBlob :=
  { ast := .otherNode [.classDecl (some "AProps")
      [⟨.extendsKw, [⟨true, "BProps"⟩]⟩]
      [.propertyDecl (some "x") false (some "string") none] []] }

def bPropsBlob : SourceBlob :=
  { ast := .otherNode [.classDecl (some "BProps") []
      [.propertyDecl (some "y") false (some "string") none] []] }

def worldC4 : List FsEntry :=
  [.dirE "lib"
    [.dirE "components"
      [.dirE "a" [.fileE "a.props.js.map" { text := emptyBlob, json := some [aPropsBlob] }],
       .dirE "b" [.fileE "b.props.js.map" { text := emptyBlob, json := some [bPropsBlob] }]]]]

/-- C4 counterexample: resolving `AProps` (whose artifact extends `BProps`)
yields two descriptors, and the appended grandparent descriptor is tagged
`inheritedFrom = BProps` — so not every descriptor in the returned list is
tagged with the resolution argument `AProps`, contrary to the claim. -/
theorem spec_C4_counterexample :
    ((getInheritedProps 2 worldC4 ["lib"] none "AProps").1.map PropInfo.inheritedFrom)
      = [some "AProps", some "BProps"]
    ∧ ¬(∀ p ∈ (getInheritedProps 2 worldC4 ["lib"] none "AProps").1,
          p.inheritedFrom = some "AProps") := by
  constructor
  · rfl
  · decide

/-- C4 witness: the amended theorem's decomposition applied at the concrete
two-level world. -/
theorem spec_C4_ancestor_resolution_tagging_witness :
    (getInheritedProps 2 worldC4 ["lib"] none "AProps").1
      = [{ name := "x", type := "string", defaultValue := none, optional := false,
           inherited := false }].map (tagInherited "AProps")
        ++ (getInheritedProps 1 worldC4 ["lib"] none "BProps").1 := by
  have h := spec_C4_ancestor_resolution_tagging.2 1 worldC4 ["lib"] none "AProps"
    ["lib", "components", "a", "a.props.js.map"] aPropsBlob
    { props := [{ name := "x", type := "string", defaultValue := none, optional := false,
                  inherited := false }],
      className := "AProps", baseClass := some "BProps" }
    (by decide) (by decide) rfl rfl
  exact h

/-! ## Claim C6: style extraction scenario -/

/-- Style source of Scenario B: `const DEFAULT_CLASS = 'app-button'` and one
`addStyle(DEFAULT_CLASS + '-disabled', …)` registration. -/
def buttonStylesBlob : SourceBlob :=
  { ast := .otherNode
      [.variableStatement [⟨true, "DEFAULT_CLASS", some "app-button"⟩] [],
       .callExpression (.identifier "addStyle") [.binaryExpr "DEFAULT_CLASS + '-disabled'"] []] }

def c6IndexBlob : SourceBlob :=
  { ast := .otherNode [.interfaceDecl (some "WmButtonProps") [] [] []] }

def worldC6 : List FsEntry :=
  [.dirE "lib" [.dirE "components" [.dirE "basic" [.dirE "button"
    [.fileE "index.tsx" { text := c6IndexBlob },
     .fileE "styles.ts" { text := buttonStylesBlob }]]]]]

/-- C6: for a style source defining the default-class constant
`"app-button"` and one registration whose first argument concatenates that
constant with `'-disabled'`, extraction yields `defaultClass = app-button`
with style class `app-button-disabled`, and the generated doc's style list
is exactly `app-button` (marked as the default style class) followed by
`app-button-disabled`. -/
theorem spec_C6_default_class_concat :
    extractStyleClasses buttonStylesBlob.ast
      = some { defaultClass := "app-button", styleClasses := ["app-button-disabled"] }
    ∧ ((generateComponentDoc 1 {} worldC6 ["lib"] none
        ["lib", "components", "basic", "button"] "basic").1.map ComponentDoc.styles)
      = some [{ className := "app-button", description := some "Default style class" },
              { className := "app-button-disabled", description := none }] := by
  exact ⟨rfl, rfl⟩

/-! ## Claim C7: missing sources are non-fatal -/

/-- C7: when a component directory yields neither a properties source nor a
behavior source (under either on-disk representation, which is exactly what
`extractComponentSources` decides), documentation generation returns `null`
to the caller instead of raising — the model returns `none` and leaves the
cache untouched. -/
theorem spec_C7_missing_sources_nonfatal (fuel : Nat) (cfg : GeneratorConfig)
    (root : List FsEntry) (cp : FsPath) (cache : Option (List PropInfo))
    (path : FsPath) (cat : String) (s : Sources)
    (h1 : extractComponentSources root path = some s)
    (h2 : s.props = none) (h3 : s.component = none) :
    generateComponentDoc (fuel + 1) cfg root cp cache path cat = (none, cache) := by
  simp only [generateComponentDoc, h1, h2, h3, Option.isNone_none, Bool.and_self, if_true]

/-- A component directory with neither representation present. -/
def worldC7 : List FsEntry :=
  [.dirE "lib" [.dirE "components" [.dirE "basic" [.dirE "empty"
    [.fileE "readme.md" { text := emptyBlob }]]]]]

/-- C7 witness: the theorem applied at a concrete directory containing only
a stray file. -/
theorem spec_C7_missing_sources_nonfatal_witness :
    generateComponentDoc 1 {} worldC7 ["lib"] none
      ["lib", "components", "basic", "empty"] "basic" = (none, none) :=
  spec_C7_missing_sources_nonfatal 0 {} worldC7 ["lib"] none
    ["lib", "components", "basic", "empty"] "basic"
    { props := none, component := none, styles := none } rfl rfl rfl

/-! ## Claim C8: unresolved ancestors are non-fatal -/

/-- C8: when no candidate stem of a non-root ancestor name matches a
properties artifact in any configured root (`findParentPropsFile` returns
`none`), ancestor resolution emits the unresolved-ancestor warning and
returns the empty property list with the cache untouched; and component
generation never fails for lack of inherited properties — whenever sources
were found (and the guarded event-file reads do not raise), the generated
doc is present. -/
theorem spec_C8_unresolved_ancestor_nonfatal :
    (∀ (fuel : Nat) (root : List FsEntry) (cp : FsPath) (cache : Option (List PropInfo))
        (n : String), n ≠ "BaseProps" → findParentPropsFile root cp n = none →
        getInheritedProps (fuel + 1) root cp cache n
          = ([], cache, [unresolvedParentWarning n]))
    ∧ (∀ (fuel : Nat) (cfg : GeneratorConfig) (root : List FsEntry) (cp : FsPath)
        (cache : Option (List PropInfo)) (path : FsPath) (cat : String) (s : Sources)
        (ce : List EventInfo),
        extractComponentSources root path = some s →
        (s.props.isNone && s.component.isNone) = false →
        collectCallbackEvents root cp
            (path ++ [(path.getLast?).getD "" ++ ".component.js"]) = .ok ce →
        (generateComponentDoc (fuel + 1) cfg root cp cache path cat).1.isSome = true) := by
  constructor
  · intro fuel root cp cache n hn hfind
    simp only [getInheritedProps, if_neg hn, hfind]
  · intro fuel cfg root cp cache path cat s ce h1 h2 h3
    simp only [generateComponentDoc, h1, h2, Bool.false_eq_true, if_false, h3,
      Option.isSome_some]

/-- A component whose props interface extends an ancestor `GhostProps` that
no artifact in any root provides. -/
def ghostIndexBlob : SourceBlob :=
  { ast := .otherNode [.interfaceDecl (some "WmGhostyProps")
      [⟨.extendsKw, [⟨true, "GhostProps"⟩]⟩]
      [.propertySig (some "caption") true (some "string")] []] }

def worldC8 : List FsEntry :=
  [.dirE "lib" [.dirE "components" [.dirE "basic" [.dirE "ghosty"
    [.fileE "index.tsx" { text := ghostIndexBlob }]]]]]

/-- C8 witness: the theorem applied at the concrete unresolvable-ancestor
world — the resolution returns the warning and the empty list, and the
enclosing generation still produces a doc. -/
theorem spec_C8_unresolved_ancestor_nonfatal_witness :
    getInheritedProps 1 worldC8 ["lib"] none "GhostProps"
      = ([], none, [unresolvedParentWarning "GhostProps"])
    ∧ (generateComponentDoc 1 {} worldC8 ["lib"] none
        ["lib", "components", "basic", "ghosty"] "basic").1.isSome = true := by
  constructor
  · exact spec_C8_unresolved_ancestor_nonfatal.1 0 worldC8 ["lib"] none "GhostProps"
      (by decide) rfl
  · exact spec_C8_unresolved_ancestor_nonfatal.2 0 {} worldC8 ["lib"] none
      ["lib", "components", "basic", "ghosty"] "basic"
      { props := some ghostIndexBlob, component := some ghostIndexBlob, styles := none }
      [] rfl rfl rfl

/-! ## Claim C9: resolution determinism and root-cache immutability -/

/-- C9: ancestor resolution is deterministic within a run — re-resolving the
same ancestor name with the cache produced by a first resolution yields the
very same result (property list, cache and warnings alike); the root
(`BaseProps`) cache, once populated, is immutable and always returned
as-is; and the first successful root computation is the value that gets
cached. -/
theorem spec_C9_resolution_deterministic :
    (∀ (fuel : Nat) (root : List FsEntry) (cp : FsPath) (cache : Option (List PropInfo))
        (n : String),
        getInheritedProps fuel root cp (getInheritedProps fuel root cp cache n).2.1 n
          = getInheritedProps fuel root cp cache n)
    ∧ (∀ (root : List FsEntry) (cp : FsPath) (ps : List PropInfo),
        getBaseProps root cp (some ps) = (ps, some ps))
    ∧ (∀ (root : List FsEntry) (cp : FsPath) (ps : List PropInfo),
        tryComputeBaseProps root cp = some ps → getBaseProps root cp none = (ps, some ps)) := by
  refine ⟨getInheritedProps_stable, fun root cp ps => rfl, ?_⟩
  intro root cp ps h
  simp only [getBaseProps, h]

/-- A well-known-location root artifact declaring `BaseProps`. -/
def basePropsBlob : SourceBlob :=
  { ast := .otherNode [.classDecl (some "BaseProps") []
      [.propertyDecl (some "id") false (some "string") none] []] }

def worldC9 : List FsEntry :=
  [.dirE "lib" [.dirE "core" [.fileE "base.component.js.map"
    { text := emptyBlob, json := some [basePropsBlob] }]]]

/-- C9 witness: the theorem applied at a concrete world whose
`core/base.component.js.map` artifact declares `BaseProps { id }`. -/
theorem spec_C9_resolution_deterministic_witness :
    getBaseProps worldC9 ["lib"] none
      = ([{ name := "id", type := "string", defaultValue := none, optional := false,
            inherited := false }],
         some [{ name := "id", type := "string", defaultValue := none, optional := false,
                 inherited := false }])
    ∧ getInheritedProps 1 worldC9 ["lib"]
        (getInheritedProps 1 worldC9 ["lib"] none "BaseProps").2.1 "BaseProps"
      = getInheritedProps 1 worldC9 ["lib"] none "BaseProps" := by
  constructor
  · exact spec_C9_resolution_deterministic.2.2 worldC9 ["lib"]
      [{ name := "id", type := "string", defaultValue := none, optional := false,
         inherited := false }] rfl
  · exact spec_C9_resolution_deterministic.1 1 worldC9 ["lib"] none "BaseProps"

/-! ## Claim C3 witness fixtures -/

def c3Config : GeneratorConfig :=
  { documentation :=
      { excludeProps := ["show"], excludeInheritedProps := ["id"],
        excludeMethods := ["renderWidget"], excludeStyleClasses := ["app-internal"],
        componentOverrides := [("button", { excludeProps := some ["hidden"] })] } }

def c3Prop : PropInfo :=
  { name := "caption", type := "string", defaultValue := none, optional := false,
    inherited := false }

def c3Method : MethodInfo :=
  { name := "focus", visibility := .publicV, returnType := "void", parameters := [] }

def c3Style : StyleInfo := { className := "app-button" }

def c3Doc : ComponentDoc :=
  .mk "button" ["lib", "components", "basic", "button"] "basic"
    [c3Prop] [c3Method] [] [c3Style] none none

/-- C3 witness: the monotonicity theorem applied to a concrete config and
doc, at the surviving property, method and style class. -/
theorem spec_C3_exclusion_monotonic_witness :
    (c3Prop.name ∉ c3Config.documentation.excludeProps
      ∧ (c3Prop.inherited = true → c3Prop.name ∉ c3Config.documentation.excludeInheritedProps)
      ∧ ∀ l, (lookupOverride c3Config c3Doc.componentName).bind ComponentOverride.excludeProps
          = some l → c3Prop.name ∉ l)
    ∧ (c3Method.name ∉ c3Config.documentation.excludeMethods
      ∧ ∀ l, (lookupOverride c3Config c3Doc.componentName).bind ComponentOverride.excludeMethods
          = some l → c3Method.name ∉ l)
    ∧ (c3Style.className ∉ c3Config.documentation.excludeStyleClasses
      ∧ ∀ l, (lookupOverride c3Config c3Doc.componentName).bind
            ComponentOverride.excludeStyleClasses = some l → c3Style.className ∉ l) := by
  refine ⟨(spec_C3_exclusion_monotonic c3Config c3Doc).1 c3Prop (by decide),
    (spec_C3_exclusion_monotonic c3Config c3Doc).2.1 c3Method ?_,
    (spec_C3_exclusion_monotonic c3Config c3Doc).2.2 c3Style ?_⟩
  · rw [filterComponentDoc_methods]
    decide
  · rw [filterComponentDoc_styles]
    decide
